import Mathlib

/-!
# Go auto-instrumentation patcher (`instrumentor/patch/golang.go`)

A shallow embedding of the Go patcher of the instrumentor: the pure
entrypoint rewriter `calculateInitArgs`, the presence check
`IsInstrumented` and the pod-template mutation `Patch`.

Go slices are lists (a nil slice and an empty slice are both `[]`: the code
only ever takes their length, ranges over them or appends to them), pointers
to scalars and to structs are `Option`s, and the in-place mutation of the pod
template is a function from the template to the mutated template.  The
Kubernetes and CRD types are represented by the fields this file reads or
writes.

`Patch` is given twice.  `Patch` works on values: an `append` is list
concatenation.  `PatchMem` works on slice headers and backing arrays: an
`append` writes into spare capacity, which another slice may share.
`PatchMem_containers` shows that the two give the same containers on every
template whose containers share no spare capacity.
-/

namespace Odigos

/-! ## Data model -/

/-- Modelled from the spec: the `language: enum` of a language declaration
(`common.ProgrammingLanguage`, declared in the `common` package, which is not
part of the source under study). -/
inductive ProgrammingLanguage where
  | java
  | python
  | go
  | dotnet
  | javascript
  deriving DecidableEq, Repr

/-- The constant `common.GoProgrammingLanguage`. -/
def GoProgrammingLanguage : ProgrammingLanguage := ProgrammingLanguage.go

/-- The `v1.ObjectFieldSelector` of the downward API. -/
structure ObjectFieldSelector where
  fieldPath : String
  deriving DecidableEq, Repr

/-- The `v1.EnvVarSource`: a nil `FieldRef` is `none`. -/
structure EnvVarSource where
  fieldRef : Option ObjectFieldSelector := none
  deriving DecidableEq, Repr

/-- The `v1.EnvVar`: a nil `ValueFrom` is `none`, an unset `Value` is `""`. -/
structure EnvVar where
  name : String
  value : String := ""
  valueFrom : Option EnvVarSource := none
  deriving DecidableEq, Repr

/-- The `v1.VolumeMount`. -/
structure VolumeMount where
  name : String
  mountPath : String
  deriving DecidableEq, Repr

/-- The `v1.Capabilities`. -/
structure Capabilities where
  add : List String := []
  drop : List String := []
  deriving DecidableEq, Repr

/-- The `v1.SecurityContext`. -/
structure SecurityContext where
  capabilities : Option Capabilities := none
  privileged : Option Bool := none
  runAsUser : Option Int := none
  deriving DecidableEq, Repr

/-- The `v1.Container`. -/
structure Container where
  name : String
  image : String := ""
  command : List String := []
  args : List String := []
  env : List EnvVar := []
  volumeMounts : List VolumeMount := []
  imagePullPolicy : String := ""
  securityContext : Option SecurityContext := none
  deriving DecidableEq, Repr

/-- The `v1.HostPathVolumeSource`. -/
structure HostPathVolumeSource where
  path : String
  deriving DecidableEq, Repr

/-- The `v1.EmptyDirVolumeSource`. -/
structure EmptyDirVolumeSource where
  medium : String := ""
  deriving DecidableEq, Repr

/-- The `v1.VolumeSource`. -/
structure VolumeSource where
  hostPath : Option HostPathVolumeSource := none
  emptyDir : Option EmptyDirVolumeSource := none
  deriving DecidableEq, Repr

/-- The `v1.Volume`. -/
structure Volume where
  name : String
  volumeSource : VolumeSource
  deriving DecidableEq, Repr

/-- The `v1.PodSpec`. -/
structure PodSpec where
  volumes : List Volume := []
  initContainers : List Container := []
  containers : List Container := []
  shareProcessNamespace : Option Bool := none
  deriving DecidableEq, Repr

/-- The `v1.PodTemplateSpec`. -/
structure PodTemplateSpec where
  spec : PodSpec
  deriving DecidableEq, Repr

/-- The `metav1.OwnerReference`. -/
structure OwnerReference where
  name : String
  deriving DecidableEq, Repr

/-- One entry of `InstrumentedApplication.Spec.Languages`. -/
structure LanguageByContainer where
  containerName : String
  language : ProgrammingLanguage
  processName : String := ""
  deriving DecidableEq, Repr

/-- The `odigosv1.InstrumentedApplicationSpec`. -/
structure InstrumentedApplicationSpec where
  languages : List LanguageByContainer := []
  deriving DecidableEq, Repr

/-- The `odigosv1.InstrumentedApplication`. -/
structure InstrumentedApplication where
  ownerReferences : List OwnerReference := []
  spec : InstrumentedApplicationSpec
  deriving DecidableEq, Repr

/-- The identifiers `NodeIPEnvName`, `HostIPEnvValue` (package `patch`) and
`consts.OTLPPort` that `Patch` reads and that are declared outside
`golang.go`: they are parameters of the embedding. -/
structure PackageConsts where
  NodeIPEnvName : String
  HostIPEnvValue : String
  OTLPPort : Int
  deriving DecidableEq, Repr

/-! ## Constants of `golang.go` -/

def golangKernelDebugVolumeName : String := "kernel-debug"
def golangKernelDebugHostPath : String := "/sys/kernel/debug"
def golangAgentName : String := "keyval/otel-go-agent:v0.6.1"
def golangExporterEndpoint : String := "OTEL_EXPORTER_OTLP_ENDPOINT"
def golangServiceNameEnv : String := "OTEL_SERVICE_NAME"
def golangTargetExeEnv : String := "OTEL_TARGET_EXE"
def initImage : String := "ghcr.io/keyval-dev/odigos/init:v0.1.37"
def initVolumeName : String := "odigos"
def initMountPath : String := "/odigos"
def initExePath : String := "/odigos/init"

/-- The helper `boolPtr`. -/
def boolPtr (b : Bool) : Option Bool := some b

/-- The helper `intPtr`. -/
def intPtr (n : Int) : Option Int := some n

/-! ## `calculateInitArgs` -/

/-- The function `calculateInitArgs`: `args` starts as `[exeFile]` and is
extended by the two `if` statements in turn. -/
def calculateInitArgs (origCommand origArgs : List String) (exeFile : String) : List String :=
  let args := [exeFile]
  let args := if origCommand.length > 0 then args ++ origCommand else args
  let args :=
    if origArgs.length > 0 then
      let args := if origCommand.length = 0 then args ++ [exeFile] else args
      args ++ origArgs
    else args
  args

/-! ## `IsInstrumented` -/

/-- The name `fmt.Sprintf("%s-instrumentation", containerName)`. -/
def instrumentationName (containerName : String) : String :=
  containerName ++ "-instrumentation"

/-- The method `golangPatcher.IsInstrumented`: the two nested loops return
`true` at the first hit and `false` when both run to their end. -/
def IsInstrumented (podSpec : PodTemplateSpec) (instrumentation : InstrumentedApplication) : Bool :=
  instrumentation.spec.languages.any fun l =>
    decide (l.language = GoProgrammingLanguage) &&
      podSpec.spec.containers.any fun c =>
        decide (c.name = instrumentationName l.containerName)

/-! ## `Patch` -/

/-- Modelled from the spec: `shouldPatch` is declared in another file of
package `patch`.  The call site hands it the application, the language of
this patcher and a container name, and the loop of `Patch` is specified
(§4.1, step 2) to act on each declaration whose language equals the variant:
a container name is to be patched for a language when the application
declares that container with that language.  For a container that is
declared both with the language and with another one the spec does not
settle what a test of the container name answers; the properties below that
compare declarations by their language (`gateBySpec`) hold for any function
in the place of this one. -/
def shouldPatch (instrumentation : InstrumentedApplication) (lang : ProgrammingLanguage)
    (containerName : String) : Bool :=
  instrumentation.spec.languages.any fun l =>
    decide (l.containerName = containerName) && decide (l.language = lang)

/-- The init container appended at the start of `Patch`. -/
def odigosInitContainer : Container :=
  { name := "odigos-init"
    image := initImage
    imagePullPolicy := "IfNotPresent"
    command := ["cp", "-a", "/odigos-init/.", "/odigos/"]
    volumeMounts := [{ name := initVolumeName, mountPath := initMountPath }] }

/-- The value of `appName` in `Patch` for the declaration `l`. -/
def appName (instrumentation : InstrumentedApplication) (l : LanguageByContainer) : String :=
  if instrumentation.spec.languages.length = 1 ∧ instrumentation.ownerReferences.length > 0 then
    match instrumentation.ownerReferences with
    | o :: _ => o.name
    | [] => l.containerName
  else l.containerName

/-- The sidecar `bpfContainer` that `Patch` builds for the declaration `l`. -/
def bpfContainer (k : PackageConsts) (instrumentation : InstrumentedApplication)
    (l : LanguageByContainer) : Container :=
  { name := instrumentationName l.containerName
    image := golangAgentName
    env :=
      [ { name := k.NodeIPEnvName
          valueFrom := some { fieldRef := some { fieldPath := "status.hostIP" } } },
        { name := golangExporterEndpoint
          value := k.HostIPEnvValue ++ ":" ++ toString k.OTLPPort },
        { name := golangServiceNameEnv
          value := appName instrumentation l },
        { name := golangTargetExeEnv
          value := l.processName } ]
    volumeMounts :=
      [ { name := golangKernelDebugVolumeName, mountPath := golangKernelDebugHostPath } ]
    securityContext :=
      some { capabilities := some { add := ["SYS_PTRACE"] }
             privileged := boolPtr true
             runAsUser := intPtr 0 } }

/-- The three downward-API variables appended to a target container. -/
def targetEnv : List EnvVar :=
  [ { name := "HOST_IP"
      valueFrom := some { fieldRef := some { fieldPath := "status.hostIP" } } },
    { name := "POD_NAME"
      valueFrom := some { fieldRef := some { fieldPath := "metadata.name" } } },
    { name := "POD_NAMESPACE"
      valueFrom := some { fieldRef := some { fieldPath := "metadata.namespace" } } } ]

/-- The body of the inner loop of `Patch` at one container `c` of
`modifiedContainers`, on values: a container named `l.ContainerName` is
rewritten in place, any other is left as it is.  The two `append`s are list
concatenations here; `patchContainerMem` has them on slices with backing
arrays. -/
def patchContainer (l : LanguageByContainer) (c : Container) : Container :=
  if c.name = l.containerName then
    { c with
      command := [initExePath]
      args := calculateInitArgs c.command c.args l.processName
      volumeMounts := c.volumeMounts ++ [{ name := initVolumeName, mountPath := initMountPath }]
      env := c.env ++ targetEnv }
  else c

/-- The body of the outer loop of `Patch` for one declaration `l`, as a
function on `modifiedContainers`. -/
def patchLanguage (k : PackageConsts) (instrumentation : InstrumentedApplication)
    (modifiedContainers : List Container) (l : LanguageByContainer) : List Container :=
  if shouldPatch instrumentation GoProgrammingLanguage l.containerName then
    if l.processName = "" then modifiedContainers
    else modifiedContainers.map (patchContainer l) ++ [bpfContainer k instrumentation l]
  else modifiedContainers

/-- The method `golangPatcher.Patch`, from the template before the call to
the template after it. -/
def Patch (k : PackageConsts) (podSpec : PodTemplateSpec)
    (instrumentation : InstrumentedApplication) : PodTemplateSpec :=
  let modifiedContainers := podSpec.spec.containers
  let initContainers := podSpec.spec.initContainers ++ [odigosInitContainer]
  let modifiedContainers :=
    instrumentation.spec.languages.foldl (patchLanguage k instrumentation) modifiedContainers
  { podSpec with
    spec :=
      { podSpec.spec with
        initContainers := initContainers
        containers := modifiedContainers
        shareProcessNamespace := boolPtr true
        volumes := podSpec.spec.volumes ++
          [ { name := golangKernelDebugVolumeName
              volumeSource := { hostPath := some { path := golangKernelDebugHostPath } } },
            { name := initVolumeName
              volumeSource := { emptyDir := some {} } } ] } }

/-! ## `Patch` on slices with backing arrays

The definitions above read `append` on values.  In Go a slice is a view of a
backing array, and `append` writes into the array when the slice has spare
capacity, so that two slices that share an array can see each other's writes.
The definitions of this section keep, for the `Env` and the `VolumeMounts` of
a container, the slice header and the arrays behind it, and follow
`golang.go` statement by statement on them.  The slices of containers, of
init containers and of volumes stay lists: each is taken to have a backing
array of its own.  `Command` and `Args` stay lists as well: the code reads
them and assigns new slices, it never writes into their arrays. -/

/-- The zero value of `v1.EnvVar`, held by the unused cells of an array. -/
instance : Inhabited EnvVar := ⟨{ name := "" }⟩

/-- The zero value of `v1.VolumeMount`. -/
instance : Inhabited VolumeMount := ⟨{ name := "", mountPath := "" }⟩

/-- A Go slice header: the backing array (its index in the store of arrays),
the offset of the first element in it, the length, and the capacity counted
from the offset. -/
structure Slice where
  arr : Nat
  off : Nat
  len : Nat
  cap : Nat
  deriving DecidableEq, Repr

/-- The nil slice. -/
def Slice.nil : Slice := { arr := 0, off := 0, len := 0, cap := 0 }

/-- The backing array with index `i`. -/
def arrayAt {α : Type} (store : List (List α)) (i : Nat) : List α := store.getD i []

/-- The cell `j` of an array. -/
def cellAt {α : Type} [Inhabited α] (a : List α) (j : Nat) : α := a.getD j default

/-- The elements of a slice: element `i` is the cell `off + i` of its array. -/
def Slice.read {α : Type} [Inhabited α] (store : List (List α)) (s : Slice) : List α :=
  (List.range s.len).map fun i => cellAt (arrayAt store s.arr) (s.off + i)

/-- The array `a` with `xs` written into the cells from `p` on. -/
def writeCells {α : Type} [Inhabited α] (a : List α) (p : Nat) (xs : List α) : List α :=
  (List.range a.length).map fun j =>
    if p ≤ j ∧ j < p + xs.length then cellAt xs (j - p) else cellAt a j

/-- A slice literal: a new array that holds exactly `xs`. -/
def Slice.literal {α : Type} (store : List (List α)) (xs : List α) : List (List α) × Slice :=
  (store ++ [xs], { arr := store.length, off := 0, len := xs.length, cap := xs.length })

/-- The built-in `append(s, xs...)`: when the capacity suffices the elements
are written into the array of `s` behind its last element and the result is
`s` with a greater length; otherwise a new array is allocated, the elements
of `s` and `xs` are copied into it, and the result is a slice of the new
array.  The capacity of a new array is the choice of the runtime: `grow`
proposes it from the old capacity and the needed length, and it is at least
the needed length. -/
def Slice.append {α : Type} [Inhabited α] (grow : Nat → Nat → Nat) (store : List (List α))
    (s : Slice) (xs : List α) : List (List α) × Slice :=
  if s.len + xs.length ≤ s.cap then
    (store.set s.arr (writeCells (arrayAt store s.arr) (s.off + s.len) xs),
      { s with len := s.len + xs.length })
  else
    let newCap := max (s.len + xs.length) (grow s.cap (s.len + xs.length))
    (store ++ [s.read store ++ xs ++ List.replicate (newCap - (s.len + xs.length)) default],
      { arr := store.length, off := 0, len := s.len + xs.length, cap := newCap })

/-- The arrays behind the `Env` slices and behind the `VolumeMounts` slices. -/
structure Memory where
  envs : List (List EnvVar) := []
  mounts : List (List VolumeMount) := []
  deriving Repr

/-- The `v1.Container` with its `Env` and `VolumeMounts` as slice headers. -/
structure MemContainer where
  name : String
  image : String := ""
  command : List String := []
  args : List String := []
  env : Slice := Slice.nil
  volumeMounts : Slice := Slice.nil
  imagePullPolicy : String := ""
  securityContext : Option SecurityContext := none
  deriving Repr

/-- The `v1.PodTemplateSpec` with the memory its containers point into. -/
structure MemPodTemplateSpec where
  memory : Memory := {}
  volumes : List Volume := []
  initContainers : List MemContainer := []
  containers : List MemContainer := []
  shareProcessNamespace : Option Bool := none
  deriving Repr

/-- The value of a container: its slices read through the memory. -/
def MemContainer.toContainer (mem : Memory) (c : MemContainer) : Container :=
  { name := c.name
    image := c.image
    command := c.command
    args := c.args
    env := c.env.read mem.envs
    volumeMounts := c.volumeMounts.read mem.mounts
    imagePullPolicy := c.imagePullPolicy
    securityContext := c.securityContext }

/-- The value of a template. -/
def MemPodTemplateSpec.toTemplate (m : MemPodTemplateSpec) : PodTemplateSpec :=
  { spec :=
      { volumes := m.volumes
        initContainers := m.initContainers.map (MemContainer.toContainer m.memory)
        containers := m.containers.map (MemContainer.toContainer m.memory)
        shareProcessNamespace := m.shareProcessNamespace } }

/-- The init container of `Patch` in memory: `VolumeMounts` is a slice
literal, `Env` is not set. -/
def odigosInitContainerMem (mem : Memory) : Memory × MemContainer :=
  let vm := Slice.literal mem.mounts odigosInitContainer.volumeMounts
  ({ mem with mounts := vm.1 },
    { name := odigosInitContainer.name
      image := odigosInitContainer.image
      imagePullPolicy := odigosInitContainer.imagePullPolicy
      command := odigosInitContainer.command
      volumeMounts := vm.2 })

/-- The sidecar `bpfContainer` in memory: `Env` and `VolumeMounts` are slice
literals. -/
def bpfContainerMem (k : PackageConsts) (instrumentation : InstrumentedApplication)
    (l : LanguageByContainer) (mem : Memory) : Memory × MemContainer :=
  let ev := Slice.literal mem.envs (bpfContainer k instrumentation l).env
  let vm := Slice.literal mem.mounts (bpfContainer k instrumentation l).volumeMounts
  ({ envs := ev.1, mounts := vm.1 },
    { name := (bpfContainer k instrumentation l).name
      image := (bpfContainer k instrumentation l).image
      env := ev.2
      volumeMounts := vm.2
      securityContext := (bpfContainer k instrumentation l).securityContext })

/-- The body of the inner loop of `Patch` at the container `c`, on memory:
`targetC.VolumeMounts = append(c.VolumeMounts, ...)` and then
`targetC.Env = append(c.Env, ...)`. -/
def patchContainerMem (grow : Nat → Nat → Nat) (l : LanguageByContainer) (mem : Memory)
    (c : MemContainer) : Memory × MemContainer :=
  if c.name = l.containerName then
    let vm := c.volumeMounts.append grow mem.mounts
      [{ name := initVolumeName, mountPath := initMountPath }]
    let ev := c.env.append grow mem.envs targetEnv
    ({ envs := ev.1, mounts := vm.1 },
      { c with
        command := [initExePath]
        args := calculateInitArgs c.command c.args l.processName
        volumeMounts := vm.2
        env := ev.2 })
  else (mem, c)

/-- The inner loop of `Patch` on memory: the containers are visited in order,
each with the memory the earlier ones have left. -/
def patchContainersMem (grow : Nat → Nat → Nat) (l : LanguageByContainer) :
    Memory → List MemContainer → Memory × List MemContainer
  | mem, [] => (mem, [])
  | mem, c :: cs =>
    let r := patchContainerMem grow l mem c
    let rs := patchContainersMem grow l r.1 cs
    (rs.1, r.2 :: rs.2)

/-- The body of the outer loop of `Patch` on memory: the sidecar is built,
the inner loop runs, the sidecar is appended. -/
def patchLanguageMem (grow : Nat → Nat → Nat) (k : PackageConsts)
    (instrumentation : InstrumentedApplication) (st : Memory × List MemContainer)
    (l : LanguageByContainer) : Memory × List MemContainer :=
  if shouldPatch instrumentation GoProgrammingLanguage l.containerName then
    if l.processName = "" then st
    else
      let b := bpfContainerMem k instrumentation l st.1
      let r := patchContainersMem grow l b.1 st.2
      (r.1, r.2 ++ [b.2])
  else st

/-- The method `golangPatcher.Patch` on a template in memory. -/
def PatchMem (grow : Nat → Nat → Nat) (k : PackageConsts) (podSpec : MemPodTemplateSpec)
    (instrumentation : InstrumentedApplication) : MemPodTemplateSpec :=
  let modifiedContainers := podSpec.containers
  let init := odigosInitContainerMem podSpec.memory
  let r := instrumentation.spec.languages.foldl (patchLanguageMem grow k instrumentation)
    (init.1, modifiedContainers)
  { memory := r.1
    initContainers := podSpec.initContainers ++ [init.2]
    containers := r.2
    shareProcessNamespace := boolPtr true
    volumes := podSpec.volumes ++
      [ { name := golangKernelDebugVolumeName
          volumeSource := { hostPath := some { path := golangKernelDebugHostPath } } },
        { name := initVolumeName
          volumeSource := { emptyDir := some {} } } ] }

/-- A slice header that lies within its backing array, as every slice of a Go
program does. -/
def Slice.Valid {α : Type} (store : List (List α)) (s : Slice) : Prop :=
  s.len ≤ s.cap ∧ s.off + s.cap ≤ (arrayAt store s.arr).length

instance {α : Type} (store : List (List α)) (s : Slice) : Decidable (s.Valid store) :=
  inferInstanceAs (Decidable (_ ∧ _))

/-- The spare capacity of `s` (the cells behind its last element, up to its
capacity) shares no cell with the part of an array that `t` spans. -/
def Slice.Apart (s t : Slice) : Prop :=
  s.arr = t.arr → s.cap ≤ s.len ∨ s.off + s.cap ≤ t.off ∨ t.off + t.cap ≤ s.off + s.len

instance (s t : Slice) : Decidable (s.Apart t) :=
  inferInstanceAs (Decidable (_ → _))

/-- The slices of a container lie within their arrays. -/
def MemContainer.Valid (mem : Memory) (c : MemContainer) : Prop :=
  c.env.Valid mem.envs ∧ c.volumeMounts.Valid mem.mounts

instance (mem : Memory) (c : MemContainer) : Decidable (c.Valid mem) :=
  inferInstanceAs (Decidable (_ ∧ _))

/-- Neither container has an `Env` or `VolumeMounts` slice whose spare
capacity overlaps the corresponding slice of the other. -/
def MemContainer.Apart (c d : MemContainer) : Prop :=
  c.env.Apart d.env ∧ d.env.Apart c.env ∧
    c.volumeMounts.Apart d.volumeMounts ∧ d.volumeMounts.Apart c.volumeMounts

instance (c d : MemContainer) : Decidable (c.Apart d) :=
  inferInstanceAs (Decidable (_ ∧ _))

/-- Every slice of the template lies within its backing array. -/
def MemPodTemplateSpec.WellFormed (m : MemPodTemplateSpec) : Prop :=
  (∀ c ∈ m.containers, c.Valid m.memory) ∧ (∀ c ∈ m.initContainers, c.Valid m.memory)

instance (m : MemPodTemplateSpec) : Decidable m.WellFormed :=
  inferInstanceAs (Decidable (_ ∧ _))

/-- No two containers of the template share spare capacity: no `Env` or
`VolumeMounts` slice of a container has unused capacity in the part of an
array that the corresponding slice of another container spans. -/
def MemPodTemplateSpec.Separated (m : MemPodTemplateSpec) : Prop :=
  m.containers.Pairwise MemContainer.Apart

instance (m : MemPodTemplateSpec) : Decidable m.Separated :=
  inferInstanceAs (Decidable (List.Pairwise _ _))

/-- Modelled from the spec: what §4.1, step 2 says of the test that stands
where the code calls `shouldPatch`, which is declared outside `golang.go`:
the loop acts on the declarations whose language is that of the patcher.
`sp` answers so for the declarations `ls` of the application. -/
def gateBySpec (sp : InstrumentedApplication → ProgrammingLanguage → String → Bool)
    (instrumentation : InstrumentedApplication) (ls : List LanguageByContainer) : Prop :=
  ∀ l ∈ ls, sp instrumentation GoProgrammingLanguage l.containerName =
    decide (l.language = GoProgrammingLanguage)

instance (sp : InstrumentedApplication → ProgrammingLanguage → String → Bool)
    (instrumentation : InstrumentedApplication) (ls : List LanguageByContainer) :
    Decidable (gateBySpec sp instrumentation ls) :=
  inferInstanceAs (Decidable (∀ l ∈ ls, _))

/-- The capacity rule of the concrete runs: twice the old capacity. -/
def exampleGrow (oldCap _needed : Nat) : Nat := 2 * oldCap

/-- A template in memory whose two containers share one array of eight
`EnvVar` cells: `app` sees the first cell, `proxy` the first two. -/
def sharedPod : MemPodTemplateSpec :=
  { memory :=
      { envs :=
          [[{ name := "MODE", value := "prod" }, { name := "LEVEL", value := "info" },
            default, default, default, default, default, default]] }
    containers :=
      [ { name := "app", image := "shop/app:1", command := ["server"], args := ["--flag"]
          env := { arr := 0, off := 0, len := 1, cap := 8 } },
        { name := "proxy", image := "shop/proxy:2"
          env := { arr := 0, off := 0, len := 2, cap := 8 } } ] }

/-- The template `examplePod` in memory, every slice with its own array;
the `Env` of `app` has spare capacity for five more variables. -/
def exampleMemPod : MemPodTemplateSpec :=
  { memory :=
      { envs := [[{ name := "MODE", value := "prod" }, default, default, default, default,
          default]]
        mounts := [[{ name := "data", mountPath := "/data" }]] }
    containers :=
      [ { name := "app", image := "shop/app:1", command := ["server"], args := ["--flag"]
          env := { arr := 0, off := 0, len := 1, cap := 6 }
          volumeMounts := { arr := 0, off := 0, len := 1, cap := 1 } },
        { name := "proxy", image := "shop/proxy:2" } ]
    initContainers := [{ name := "migrate", image := "shop/migrate:1" }]
    volumes := [{ name := "data", volumeSource := { emptyDir := some {} } }]
    shareProcessNamespace := some false }

/-- Go declarations for both containers of `sharedPod`. -/
def bothApp : InstrumentedApplication :=
  { spec :=
      { languages :=
          [ { containerName := "app", language := ProgrammingLanguage.go,
              processName := "/bin/server" },
            { containerName := "proxy", language := ProgrammingLanguage.go,
              processName := "/bin/proxy" } ] } }

/-! ## Auxiliary definitions for the proofs -/

/-- Whether the outer loop of `Patch` reaches the rewriting of the containers
and the `append` of the sidecar for the declaration `l`: `shouldPatch` holds
and the process name is not empty. -/
def isPatched (instrumentation : InstrumentedApplication) (l : LanguageByContainer) : Bool :=
  shouldPatch instrumentation GoProgrammingLanguage l.containerName && decide (l.processName ≠ "")

/-- What the declarations `ls`, taken in order, do to one container that is
in `modifiedContainers` before the first of them is visited. -/
def patchAll (instrumentation : InstrumentedApplication) (ls : List LanguageByContainer)
    (c : Container) : Container :=
  ls.foldl (fun c l => if isPatched instrumentation l then patchContainer l c else c) c

/-- The containers appended while the declarations `ls` are visited, in the
state the end of the loop leaves them in: the sidecar of a declaration goes
through the inner loop of every declaration after it. -/
def sidecars (k : PackageConsts) (instrumentation : InstrumentedApplication) :
    List LanguageByContainer → List Container
  | [] => []
  | l :: ls =>
    if isPatched instrumentation l then
      patchAll instrumentation ls (bpfContainer k instrumentation l) :: sidecars k instrumentation ls
    else sidecars k instrumentation ls

/-- Values for the three package-level identifiers, for the concrete runs. -/
def exampleConsts : PackageConsts :=
  { NodeIPEnvName := "NODE_IP", HostIPEnvValue := "$(NODE_IP)", OTLPPort := 4317 }

/-- A template with a Go container `app`, a second container, one init
container and one volume, for the concrete runs. -/
def examplePod : PodTemplateSpec :=
  { spec :=
      { containers :=
          [ { name := "app", image := "shop/app:1", command := ["server"], args := ["--flag"]
              env := [{ name := "MODE", value := "prod" }]
              volumeMounts := [{ name := "data", mountPath := "/data" }] },
            { name := "proxy", image := "shop/proxy:2" } ]
        initContainers := [{ name := "migrate", image := "shop/migrate:1" }]
        volumes := [{ name := "data", volumeSource := { emptyDir := some {} } }]
        shareProcessNamespace := some false } }

/-- The declaration of the container `app` of `examplePod`. -/
def exampleLanguage : LanguageByContainer :=
  { containerName := "app", language := ProgrammingLanguage.go, processName := "/bin/server" }

/-- An application with one owner and the single declaration
`exampleLanguage`. -/
def exampleApp : InstrumentedApplication :=
  { ownerReferences := [{ name := "shop" }]
    spec := { languages := [exampleLanguage] } }

/-- A template with the two containers `a` and `a-instrumentation`. -/
def clashPod : PodTemplateSpec :=
  { spec :=
      { containers :=
          [ { name := "a", image := "shop/a:1" },
            { name := "a-instrumentation", image := "shop/b:1" } ] } }

/-- Two Go declarations, one for each container of `clashPod`: the second
carries the name that the sidecar of the first one gets. -/
def clashApp : InstrumentedApplication :=
  { spec :=
      { languages :=
          [ { containerName := "a", language := ProgrammingLanguage.go, processName := "p" },
            { containerName := "a-instrumentation", language := ProgrammingLanguage.go,
              processName := "q" } ] } }

/-- The body of the outer loop of `Patch` with an arbitrary function `sp` of
the application, the language and the container name where the code calls
`shouldPatch`. -/
def patchLanguageWith (sp : InstrumentedApplication → ProgrammingLanguage → String → Bool)
    (k : PackageConsts) (instrumentation : InstrumentedApplication)
    (modifiedContainers : List Container) (l : LanguageByContainer) : List Container :=
  if sp instrumentation GoProgrammingLanguage l.containerName then
    if l.processName = "" then modifiedContainers
    else modifiedContainers.map (patchContainer l) ++ [bpfContainer k instrumentation l]
  else modifiedContainers

/-- The outer loop of `Patch` with `sp` where the code calls `shouldPatch`. -/
def patchLoopWith (sp : InstrumentedApplication → ProgrammingLanguage → String → Bool)
    (k : PackageConsts) (instrumentation : InstrumentedApplication)
    (containers : List Container) : List Container :=
  instrumentation.spec.languages.foldl (patchLanguageWith sp k instrumentation) containers

/-- A container with the value of every `OTEL_SERVICE_NAME` variable blanked:
two containers with the same image under it differ at most in that value. -/
def eraseServiceName (c : Container) : Container :=
  { c with
    env := c.env.map fun e => if e.name = golangServiceNameEnv then { e with value := "" } else e }

/-- A template with the single container `a`. -/
def singlePod : PodTemplateSpec :=
  { spec := { containers := [{ name := "a", image := "shop/a:1", command := ["run"] }] } }

/-- The container `a` declared twice with a process name: as Go and as Java. -/
def mixedApp : InstrumentedApplication :=
  { spec :=
      { languages :=
          [ { containerName := "a", language := ProgrammingLanguage.go, processName := "p" },
            { containerName := "a", language := ProgrammingLanguage.java, processName := "q" } ] } }

/-- The application `exampleApp` with a declaration without process name, for
the container `proxy`, in front. -/
def proxyApp : InstrumentedApplication :=
  { ownerReferences := [{ name := "shop" }]
    spec :=
      { languages :=
          [ { containerName := "proxy", language := ProgrammingLanguage.go, processName := "" },
            exampleLanguage ] } }

/-- An application whose two declarations have no process name. -/
def unnamedApp : InstrumentedApplication :=
  { spec :=
      { languages :=
          [ { containerName := "app", language := ProgrammingLanguage.go, processName := "" },
            { containerName := "proxy", language := ProgrammingLanguage.java, processName := "" } ] } }

/-- A Go declaration for a container that `examplePod` does not have. -/
def absentApp : InstrumentedApplication :=
  { spec :=
      { languages :=
          [ { containerName := "worker", language := ProgrammingLanguage.go,
              processName := "/bin/worker" } ] } }

/-! ## Properties of `calculateInitArgs` -/

/-- C1: for all commands, arguments and executables, `calculateInitArgs` is
`[exe] ++ originalCommand ++ (if originalArgs is empty then [] else (if
originalCommand is empty then [exe] else []) ++ originalArgs)`; its first
element is `exe`, and the four documented examples hold for every `e`. -/
theorem calculateInitArgs_spec (originalCommand originalArgs : List String) (exe : String) :
    calculateInitArgs originalCommand originalArgs exe =
        [exe] ++ originalCommand ++
          (if originalArgs = [] then []
           else (if originalCommand = [] then [exe] else []) ++ originalArgs)
      ∧ (calculateInitArgs originalCommand originalArgs exe).head? = some exe
      ∧ calculateInitArgs [] [] exe = [exe]
      ∧ calculateInitArgs ["server"] [] exe = [exe, "server"]
      ∧ calculateInitArgs [] ["--flag"] exe = [exe, exe, "--flag"]
      ∧ calculateInitArgs ["server"] ["--flag"] exe = [exe, "server", "--flag"] := by
  refine ⟨?_, ?_, rfl, rfl, rfl, rfl⟩
  · cases originalCommand <;> cases originalArgs <;> simp [calculateInitArgs]
  · cases originalCommand <;> cases originalArgs <;> simp [calculateInitArgs]

/-- C2: the length of `calculateInitArgs originalCommand originalArgs exe` is
`1 + |originalCommand| + |originalArgs|`, plus one when the command is empty
and the arguments are not, and its first element is `exe`. -/
theorem calculateInitArgs_length (originalCommand originalArgs : List String) (exe : String) :
    (calculateInitArgs originalCommand originalArgs exe).length =
        1 + originalCommand.length + originalArgs.length +
          (if originalCommand = [] ∧ originalArgs ≠ [] then 1 else 0)
      ∧ (calculateInitArgs originalCommand originalArgs exe).head? = some exe := by
  constructor
  · cases originalCommand <;> cases originalArgs <;> simp [calculateInitArgs] <;> omega
  · cases originalCommand <;> cases originalArgs <;> simp [calculateInitArgs]

/-! ## Properties of `IsInstrumented` -/

/-- C3: `IsInstrumented` is `true` exactly when some declaration has language
Go and some container of the template is named
`<containerName>-instrumentation` for it; it is `false` for a spec with no
declaration and for a spec with no Go declaration. -/
theorem IsInstrumented_iff (podSpec : PodTemplateSpec) (instrumentation : InstrumentedApplication) :
    (IsInstrumented podSpec instrumentation = true ↔
        ∃ l ∈ instrumentation.spec.languages, l.language = ProgrammingLanguage.go ∧
          ∃ c ∈ podSpec.spec.containers, c.name = l.containerName ++ "-instrumentation")
      ∧ (instrumentation.spec.languages = [] → IsInstrumented podSpec instrumentation = false)
      ∧ ((∀ l ∈ instrumentation.spec.languages, l.language ≠ ProgrammingLanguage.go) →
          IsInstrumented podSpec instrumentation = false) := by
  have key : IsInstrumented podSpec instrumentation = true ↔
      ∃ l ∈ instrumentation.spec.languages, l.language = ProgrammingLanguage.go ∧
        ∃ c ∈ podSpec.spec.containers, c.name = l.containerName ++ "-instrumentation" := by
    simp [IsInstrumented, GoProgrammingLanguage, instrumentationName, List.any_eq_true]
  refine ⟨key, ?_, ?_⟩
  · intro h
    simp [IsInstrumented, h]
  · intro h
    rw [← Bool.not_eq_true, key]
    rintro ⟨l, hl, hgo, _⟩
    exact h l hl hgo


/-! ## The container list after `Patch` -/

theorem patchLanguage_eq (k : PackageConsts) (inst : InstrumentedApplication)
    (cs : List Container) (l : LanguageByContainer) :
    patchLanguage k inst cs l =
      if isPatched inst l then cs.map (patchContainer l) ++ [bpfContainer k inst l] else cs := by
  unfold patchLanguage isPatched
  by_cases h1 : shouldPatch inst GoProgrammingLanguage l.containerName = true <;>
    by_cases h2 : l.processName = "" <;> simp [h1, h2]

theorem patchAll_nil (inst : InstrumentedApplication) (c : Container) :
    patchAll inst [] c = c := rfl

theorem patchAll_cons (inst : InstrumentedApplication) (l : LanguageByContainer)
    (ls : List LanguageByContainer) (c : Container) :
    patchAll inst (l :: ls) c =
      patchAll inst ls (if isPatched inst l then patchContainer l c else c) := rfl

/-- The outer loop of `Patch`: every container present at the start goes
through the declarations in order, and the sidecars follow. -/
theorem foldl_patchLanguage (k : PackageConsts) (inst : InstrumentedApplication)
    (ls : List LanguageByContainer) (cs : List Container) :
    ls.foldl (patchLanguage k inst) cs = cs.map (patchAll inst ls) ++ sidecars k inst ls := by
  induction ls generalizing cs with
  | nil =>
    show cs = List.map (fun c => c) cs ++ []
    simp
  | cons l ls ih =>
    rw [List.foldl_cons, ih, patchLanguage_eq]
    by_cases h : isPatched inst l = true
    · simp [h, sidecars, patchAll_cons, Function.comp_def]
    · simp [h, sidecars, patchAll_cons]

theorem Patch_containers (k : PackageConsts) (podSpec : PodTemplateSpec)
    (inst : InstrumentedApplication) :
    (Patch k podSpec inst).spec.containers =
      podSpec.spec.containers.map (patchAll inst inst.spec.languages) ++
        sidecars k inst inst.spec.languages := by
  simp [Patch, foldl_patchLanguage]

theorem Patch_initContainers_append (k : PackageConsts) (podSpec : PodTemplateSpec)
    (inst : InstrumentedApplication) :
    (Patch k podSpec inst).spec.initContainers =
      podSpec.spec.initContainers ++ [odigosInitContainer] := rfl

theorem patchContainer_name (l : LanguageByContainer) (c : Container) :
    (patchContainer l c).name = c.name := by
  unfold patchContainer
  split <;> rfl

theorem patchAll_name (inst : InstrumentedApplication) (ls : List LanguageByContainer)
    (c : Container) : (patchAll inst ls c).name = c.name := by
  induction ls generalizing c with
  | nil => rfl
  | cons l ls ih =>
    rw [patchAll_cons, ih]
    split
    · exact patchContainer_name l c
    · rfl

theorem patchContainer_of_ne (l : LanguageByContainer) (c : Container)
    (h : c.name ≠ l.containerName) : patchContainer l c = c := by
  simp [patchContainer, h]

/-- A container that no patched declaration of `ls` names is left as it is. -/
theorem patchAll_of_ne (inst : InstrumentedApplication) (ls : List LanguageByContainer)
    (c : Container)
    (h : ∀ l ∈ ls, isPatched inst l = true → l.containerName ≠ c.name) :
    patchAll inst ls c = c := by
  induction ls generalizing c with
  | nil => rfl
  | cons l ls ih =>
    rw [patchAll_cons]
    have hl : (if isPatched inst l then patchContainer l c else c) = c := by
      split
      · next hp =>
        exact patchContainer_of_ne l c (fun e => h l (List.mem_cons_self _ _) hp e.symm)
      · rfl
    rw [hl]
    exact ih c (fun m hm => h m (List.mem_cons_of_mem _ hm))



theorem shouldPatch_of_mem (inst : InstrumentedApplication) (l : LanguageByContainer)
    (hl : l ∈ inst.spec.languages) (hgo : l.language = ProgrammingLanguage.go) :
    shouldPatch inst GoProgrammingLanguage l.containerName = true := by
  simp only [shouldPatch, List.any_eq_true, Bool.and_eq_true, decide_eq_true_eq]
  exact ⟨l, hl, rfl, hgo⟩

theorem isPatched_of_mem (inst : InstrumentedApplication) (l : LanguageByContainer)
    (hl : l ∈ inst.spec.languages) (hgo : l.language = ProgrammingLanguage.go)
    (hp : l.processName ≠ "") : isPatched inst l = true := by
  simp [isPatched, shouldPatch_of_mem inst l hl hgo, hp]

/-- A container named by exactly one declaration of `ls`, a patched one, is
rewritten once, by that declaration. -/
theorem patchAll_of_nodup (inst : InstrumentedApplication) (ls : List LanguageByContainer)
    (c : Container) (l : LanguageByContainer) (hl : l ∈ ls)
    (hnodup : (ls.map (fun m => m.containerName)).Nodup)
    (hp : isPatched inst l = true) (hname : c.name = l.containerName) :
    patchAll inst ls c = patchContainer l c := by
  induction ls generalizing c with
  | nil => cases hl
  | cons m ls ih =>
    rw [List.map_cons, List.nodup_cons] at hnodup
    rw [patchAll_cons]
    rcases List.mem_cons.1 hl with rfl | hmem
    · rw [if_pos hp]
      apply patchAll_of_ne
      intro m hm _ e
      apply hnodup.1
      rw [patchContainer_name, hname] at e
      rw [← e]
      exact List.mem_map_of_mem _ hm
    · have hne : c.name ≠ m.containerName := by
        intro e
        apply hnodup.1
        rw [← e, hname]
        exact List.mem_map_of_mem (fun m => m.containerName) hmem
      have hstep : (if isPatched inst m then patchContainer m c else c) = c := by
        split
        · exact patchContainer_of_ne m c hne
        · rfl
      rw [hstep]
      exact ih c hmem hnodup.2 hname

/-- Every appended container is the sidecar of a patched declaration, taken
through the declarations after it. -/
theorem sidecars_mem (k : PackageConsts) (inst : InstrumentedApplication)
    (ls : List LanguageByContainer) (c : Container) (hc : c ∈ sidecars k inst ls) :
    ∃ l ∈ ls, isPatched inst l = true ∧
      ∃ rest : List LanguageByContainer, c = patchAll inst rest (bpfContainer k inst l) := by
  induction ls with
  | nil => simp [sidecars] at hc
  | cons m ls ih =>
    unfold sidecars at hc
    by_cases hm : isPatched inst m = true
    · rw [if_pos hm] at hc
      rcases List.mem_cons.1 hc with rfl | hc
      · exact ⟨m, List.mem_cons_self _ _, hm, ls, rfl⟩
      · obtain ⟨l, hl, hp, rest, e⟩ := ih hc
        exact ⟨l, List.mem_cons_of_mem _ hl, hp, rest, e⟩
    · rw [if_neg hm] at hc
      obtain ⟨l, hl, hp, rest, e⟩ := ih hc
      exact ⟨l, List.mem_cons_of_mem _ hl, hp, rest, e⟩

/-- When no patched declaration names the sidecar of an earlier patched
declaration, the appended containers are the sidecars as they were built. -/
theorem sidecars_of_pairwise (k : PackageConsts) (inst : InstrumentedApplication)
    (ls : List LanguageByContainer)
    (h : ls.Pairwise (fun l₁ l₂ => isPatched inst l₁ = true → isPatched inst l₂ = true →
      l₂.containerName ≠ l₁.containerName ++ "-instrumentation")) :
    sidecars k inst ls = (ls.filter (isPatched inst)).map (bpfContainer k inst) := by
  induction ls with
  | nil => rfl
  | cons m ls ih =>
    rw [List.pairwise_cons] at h
    unfold sidecars
    by_cases hm : isPatched inst m = true
    · rw [if_pos hm, List.filter_cons_of_pos hm, List.map_cons, ih h.2]
      congr 1
      apply patchAll_of_ne
      intro l hl hp
      exact h.1 l hl hm hp
    · rw [if_neg hm, List.filter_cons_of_neg hm, ih h.2]

/-- The inner loop only appends to the environment of a container. -/
theorem patchAll_env (inst : InstrumentedApplication) (ls : List LanguageByContainer)
    (c : Container) : ∃ extra : List EnvVar, (patchAll inst ls c).env = c.env ++ extra := by
  induction ls generalizing c with
  | nil => exact ⟨[], by simp [patchAll_nil]⟩
  | cons l ls ih =>
    rw [patchAll_cons]
    obtain ⟨extra, he⟩ := ih (if isPatched inst l then patchContainer l c else c)
    rw [he]
    split
    · unfold patchContainer
      split
      · exact ⟨targetEnv ++ extra, by simp⟩
      · exact ⟨extra, rfl⟩
    · exact ⟨extra, rfl⟩

theorem countP_name_map_patchAll (inst : InstrumentedApplication) (ls : List LanguageByContainer)
    (s : String) (cs : List Container) :
    (cs.map (patchAll inst ls)).countP (fun c => decide (c.name = s)) =
      cs.countP (fun c => decide (c.name = s)) := by
  rw [List.countP_map]
  congr 1
  funext c
  simp [patchAll_name]


/-! ## Properties of `Patch` -/

/-- On values: when all declarations are Go declarations with a non-empty
process name and pairwise distinct container names, a container that the
declaration `l` names is rewritten once, by `l`, and stays at its index. -/
theorem Patch_target_value (k : PackageConsts) (podSpec : PodTemplateSpec)
    (inst : InstrumentedApplication)
    (hgo : ∀ l ∈ inst.spec.languages, l.language = ProgrammingLanguage.go)
    (hproc : ∀ l ∈ inst.spec.languages, l.processName ≠ "")
    (hnodup : (inst.spec.languages.map (fun l => l.containerName)).Nodup)
    (i : Nat) (c : Container) (l : LanguageByContainer)
    (hc : podSpec.spec.containers[i]? = some c) (hl : l ∈ inst.spec.languages)
    (hname : c.name = l.containerName) :
    (Patch k podSpec inst).spec.containers[i]? =
      some { c with
        command := ["/odigos/init"]
        args := calculateInitArgs c.command c.args l.processName
        volumeMounts := c.volumeMounts ++ [{ name := "odigos", mountPath := "/odigos" }]
        env := c.env ++
          [ { name := "HOST_IP", value := ""
              valueFrom := some { fieldRef := some { fieldPath := "status.hostIP" } } },
            { name := "POD_NAME", value := ""
              valueFrom := some { fieldRef := some { fieldPath := "metadata.name" } } },
            { name := "POD_NAMESPACE", value := ""
              valueFrom := some { fieldRef := some { fieldPath := "metadata.namespace" } } } ] } := by
  have hi : i < podSpec.spec.containers.length := by
    rcases List.getElem?_eq_some.1 hc with ⟨h, _⟩
    exact h
  have hp : isPatched inst l = true := isPatched_of_mem inst l hl (hgo l hl) (hproc l hl)
  rw [Patch_containers, List.getElem?_append_left (by simpa using hi), List.getElem?_map, hc,
    Option.map_some', patchAll_of_nodup inst _ c l hl hnodup hp hname]
  simp [patchContainer, hname, initExePath, initVolumeName, initMountPath, targetEnv]

/-- C5, as stated, fails: on the template with the containers `a` and
`a-instrumentation`, both declared as Go, the first appended container (index
`2 + 0`) is the sidecar of `a` rewritten by the declaration of
`a-instrumentation`: its command is `["/odigos/init"]`, not empty, its
arguments are `["q"]`, and it has seven environment variables and two volume
mounts. -/
theorem Patch_sidecar_shape_counterexample :
    clashPod.spec.containers.length = 2 ∧
      ∃ c, (Patch exampleConsts clashPod clashApp).spec.containers[2 + 0]? = some c ∧
        c.name = "a-instrumentation" ∧ c.image = "keyval/otel-go-agent:v0.6.1" ∧
        c.command = ["/odigos/init"] ∧ c.command ≠ [] ∧ c.args = ["q"] ∧
        c.env.length = 7 ∧ c.volumeMounts.length = 2 := by
  refine ⟨rfl, _, rfl, ?_⟩
  decide

/-- C5, amended: when no declaration that `Patch` acts on (`shouldPatch`
holds, the process name is not empty) carries the name of the sidecar of an
earlier such declaration, every container at an index at or beyond the
original container count is, in the final template, exactly the sidecar built
for a declaration `l` of the spec: named `<containerName>-instrumentation`,
with the agent image, no command and no arguments, the four environment
variables, the one mount of `kernel-debug` and the privileged security
context. -/
theorem Patch_sidecar_shape (k : PackageConsts) (podSpec : PodTemplateSpec)
    (inst : InstrumentedApplication)
    (hclash : inst.spec.languages.Pairwise (fun l₁ l₂ =>
      (shouldPatch inst GoProgrammingLanguage l₁.containerName = true ∧ l₁.processName ≠ "") →
      (shouldPatch inst GoProgrammingLanguage l₂.containerName = true ∧ l₂.processName ≠ "") →
      l₂.containerName ≠ l₁.containerName ++ "-instrumentation"))
    (j : Nat) (c : Container)
    (hc : (Patch k podSpec inst).spec.containers[podSpec.spec.containers.length + j]? = some c) :
    ∃ l ∈ inst.spec.languages,
      c =
        { name := l.containerName ++ "-instrumentation"
          image := "keyval/otel-go-agent:v0.6.1"
          command := []
          args := []
          env :=
            [ { name := k.NodeIPEnvName, value := ""
                valueFrom := some { fieldRef := some { fieldPath := "status.hostIP" } } },
              { name := "OTEL_EXPORTER_OTLP_ENDPOINT"
                value := k.HostIPEnvValue ++ ":" ++ toString k.OTLPPort, valueFrom := none },
              { name := "OTEL_SERVICE_NAME", value := appName inst l, valueFrom := none },
              { name := "OTEL_TARGET_EXE", value := l.processName, valueFrom := none } ]
          volumeMounts := [{ name := "kernel-debug", mountPath := "/sys/kernel/debug" }]
          imagePullPolicy := ""
          securityContext :=
            some { capabilities := some { add := ["SYS_PTRACE"], drop := [] }
                   privileged := some true
                   runAsUser := some 0 } } := by
  have hpw : inst.spec.languages.Pairwise (fun l₁ l₂ => isPatched inst l₁ = true →
      isPatched inst l₂ = true → l₂.containerName ≠ l₁.containerName ++ "-instrumentation") := by
    refine hclash.imp ?_
    intro l₁ l₂ h h₁ h₂
    simp only [isPatched, Bool.and_eq_true, decide_eq_true_eq] at h₁ h₂
    exact h h₁ h₂
  rw [Patch_containers, List.getElem?_append_right (by simp), List.length_map,
    Nat.add_sub_cancel_left, sidecars_of_pairwise k inst _ hpw] at hc
  obtain ⟨l, hl, rfl⟩ := List.mem_map.1 (List.getElem?_mem hc)
  exact ⟨l, (List.mem_filter.1 hl).1, rfl⟩

/-- C5, amended, on `examplePod`: the container at index `2 + 0`. -/
theorem Patch_sidecar_shape_witness :
    ∃ l ∈ exampleApp.spec.languages,
      bpfContainer exampleConsts exampleApp exampleLanguage =
        { name := l.containerName ++ "-instrumentation"
          image := "keyval/otel-go-agent:v0.6.1"
          command := []
          args := []
          env :=
            [ { name := "NODE_IP", value := ""
                valueFrom := some { fieldRef := some { fieldPath := "status.hostIP" } } },
              { name := "OTEL_EXPORTER_OTLP_ENDPOINT"
                value := "$(NODE_IP)" ++ ":" ++ toString (4317 : Int), valueFrom := none },
              { name := "OTEL_SERVICE_NAME", value := appName exampleApp l, valueFrom := none },
              { name := "OTEL_TARGET_EXE", value := l.processName, valueFrom := none } ]
          volumeMounts := [{ name := "kernel-debug", mountPath := "/sys/kernel/debug" }]
          imagePullPolicy := ""
          securityContext :=
            some { capabilities := some { add := ["SYS_PTRACE"], drop := [] }
                   privileged := some true
                   runAsUser := some 0 } } :=
  Patch_sidecar_shape exampleConsts examplePod exampleApp (by simp [exampleApp]) 0
    (bpfContainer exampleConsts exampleApp exampleLanguage) (by decide)

/-- C6: every sidecar that `Patch` appends comes from a declaration `l` of the
spec (it carries the name `<l.containerName>-instrumentation` and the target
executable `l.processName`), and the value of its `OTEL_SERVICE_NAME`
variable is the name of the first owner reference when the spec has exactly
one declaration and there is an owner reference, and `l.containerName` in
every other case. -/
theorem Patch_service_name (k : PackageConsts) (podSpec : PodTemplateSpec)
    (inst : InstrumentedApplication) (j : Nat) (c : Container)
    (hc : (Patch k podSpec inst).spec.containers[podSpec.spec.containers.length + j]? = some c) :
    ∃ l ∈ inst.spec.languages, c.name = l.containerName ++ "-instrumentation" ∧
      c.env[3]? = some { name := "OTEL_TARGET_EXE", value := l.processName, valueFrom := none } ∧
      ∃ v : String,
        c.env[2]? = some { name := "OTEL_SERVICE_NAME", value := v, valueFrom := none } ∧
        (∀ (o : OwnerReference) (os : List OwnerReference),
          inst.spec.languages.length = 1 → inst.ownerReferences = o :: os → v = o.name) ∧
        (inst.spec.languages.length ≠ 1 ∨ inst.ownerReferences = [] → v = l.containerName) := by
  rw [Patch_containers, List.getElem?_append_right (by simp), List.length_map,
    Nat.add_sub_cancel_left] at hc
  obtain ⟨l, hl, _, rest, rfl⟩ := sidecars_mem k inst _ c (List.getElem?_mem hc)
  obtain ⟨extra, he⟩ := patchAll_env inst rest (bpfContainer k inst l)
  refine ⟨l, hl, ?_, ?_, appName inst l, ?_, ?_, ?_⟩
  · rw [patchAll_name]
    rfl
  · rw [he, List.getElem?_append_left (by simp [bpfContainer])]
    rfl
  · rw [he, List.getElem?_append_left (by simp [bpfContainer])]
    rfl
  · intro o os h1 ho
    simp [appName, h1, ho]
  · intro h
    unfold appName
    rcases h with h | h
    · simp [h]
    · simp [h]

/-- C6, on `examplePod`: one declaration and the owner `shop`. -/
theorem Patch_service_name_witness :
    ∃ l ∈ exampleApp.spec.languages,
      (bpfContainer exampleConsts exampleApp exampleLanguage).name =
          l.containerName ++ "-instrumentation" ∧
      (bpfContainer exampleConsts exampleApp exampleLanguage).env[3]? =
          some { name := "OTEL_TARGET_EXE", value := l.processName, valueFrom := none } ∧
      ∃ v : String,
        (bpfContainer exampleConsts exampleApp exampleLanguage).env[2]? =
            some { name := "OTEL_SERVICE_NAME", value := v, valueFrom := none } ∧
        (∀ (o : OwnerReference) (os : List OwnerReference),
          exampleApp.spec.languages.length = 1 → exampleApp.ownerReferences = o :: os →
            v = o.name) ∧
        (exampleApp.spec.languages.length ≠ 1 ∨ exampleApp.ownerReferences = [] →
          v = l.containerName) :=
  Patch_service_name exampleConsts examplePod exampleApp 0
    (bpfContainer exampleConsts exampleApp exampleLanguage) (by decide)


/-- C7: for every template and every spec, the empty one and those without a
Go declaration included, the init containers after `Patch` are the original
ones, unchanged and in order, followed by exactly one container `odigos-init`
with the init image, the copy command and the single mount of `odigos` at
`/odigos`. -/
theorem Patch_initContainers (k : PackageConsts) (podSpec : PodTemplateSpec)
    (inst : InstrumentedApplication) :
    (Patch k podSpec inst).spec.initContainers =
      podSpec.spec.initContainers ++
        [ { name := "odigos-init"
            image := "ghcr.io/keyval-dev/odigos/init:v0.1.37"
            command := ["cp", "-a", "/odigos-init/.", "/odigos/"]
            args := []
            env := []
            volumeMounts := [{ name := "odigos", mountPath := "/odigos" }]
            imagePullPolicy := "IfNotPresent"
            securityContext := none } ] := rfl

/-- C8: for every template and every spec the volumes after `Patch` are the
original ones followed by the host-path volume `kernel-debug` of
`/sys/kernel/debug` and then the empty-directory volume `odigos`: two more
volumes, however many declarations match. -/
theorem Patch_volumes (k : PackageConsts) (podSpec : PodTemplateSpec)
    (inst : InstrumentedApplication) :
    (Patch k podSpec inst).spec.volumes =
        podSpec.spec.volumes ++
          [ { name := "kernel-debug"
              volumeSource := { hostPath := some { path := "/sys/kernel/debug" }, emptyDir := none } },
            { name := "odigos"
              volumeSource := { hostPath := none, emptyDir := some { medium := "" } } } ]
      ∧ (Patch k podSpec inst).spec.volumes.length = podSpec.spec.volumes.length + 2 := by
  constructor
  · rfl
  · simp [Patch]

/-- C9: after `Patch` the process-namespace-sharing flag is set to `true`,
whatever it was before. -/
theorem Patch_shareProcessNamespace (k : PackageConsts) (podSpec : PodTemplateSpec)
    (inst : InstrumentedApplication) :
    (Patch k podSpec inst).spec.shareProcessNamespace = some true := rfl

/-- C10: `Patch` is not idempotent.  On a template with no init container
`odigos-init` and no container `<c>-instrumentation`, with a spec of exactly
one Go declaration for `c` with a non-empty process name, two successive calls
leave exactly two containers named `<c>-instrumentation`, exactly two init
containers named `odigos-init` and four added volumes, and the result differs
from the result of one call. -/
theorem Patch_twice (k : PackageConsts) (podSpec : PodTemplateSpec)
    (inst : InstrumentedApplication) (c p : String)
    (hinit : ∀ x ∈ podSpec.spec.initContainers, x.name ≠ "odigos-init")
    (hside : ∀ x ∈ podSpec.spec.containers, x.name ≠ c ++ "-instrumentation")
    (hspec : inst.spec.languages =
      [{ containerName := c, language := ProgrammingLanguage.go, processName := p }])
    (hp : p ≠ "") :
    ((Patch k (Patch k podSpec inst) inst).spec.containers.countP
        (fun x => decide (x.name = c ++ "-instrumentation")) = 2)
      ∧ ((Patch k (Patch k podSpec inst) inst).spec.initContainers.countP
        (fun x => decide (x.name = "odigos-init")) = 2)
      ∧ (Patch k (Patch k podSpec inst) inst).spec.volumes.length =
          podSpec.spec.volumes.length + 4
      ∧ Patch k (Patch k podSpec inst) inst ≠ Patch k podSpec inst := by
  have hmem : (⟨c, ProgrammingLanguage.go, p⟩ : LanguageByContainer) ∈ inst.spec.languages := by
    rw [hspec]
    exact List.mem_singleton_self _
  have hpat : isPatched inst ⟨c, ProgrammingLanguage.go, p⟩ = true :=
    isPatched_of_mem inst _ hmem rfl hp
  have hs : sidecars k inst inst.spec.languages =
      [bpfContainer k inst ⟨c, ProgrammingLanguage.go, p⟩] := by
    rw [hspec]
    simp [sidecars, hpat, patchAll_nil]
  have h0 : podSpec.spec.containers.countP
      (fun x => decide (x.name = c ++ "-instrumentation")) = 0 := by
    rw [List.countP_eq_zero]
    intro x hx
    simpa using hside x hx
  have h1 : podSpec.spec.initContainers.countP (fun x => decide (x.name = "odigos-init")) = 0 := by
    rw [List.countP_eq_zero]
    intro x hx
    simpa using hinit x hx
  have hb : (bpfContainer k inst ⟨c, ProgrammingLanguage.go, p⟩).name =
      c ++ "-instrumentation" := rfl
  refine ⟨?_, ?_, ?_, ?_⟩
  · rw [Patch_containers, Patch_containers, hs, List.countP_append, countP_name_map_patchAll,
      List.countP_append, countP_name_map_patchAll, h0]
    simp [List.countP_cons, hb]
  · rw [Patch_initContainers_append, Patch_initContainers_append, List.countP_append,
      List.countP_append, h1]
    simp [List.countP_cons, odigosInitContainer]
  · simp [Patch]
  · intro h
    have hlen := congrArg (fun t => t.spec.volumes.length) h
    simp [Patch] at hlen

/-- C10, on `examplePod`: two calls with `exampleApp`. -/
theorem Patch_twice_witness :
    ((Patch exampleConsts (Patch exampleConsts examplePod exampleApp) exampleApp).spec.containers.countP
        (fun x => decide (x.name = "app" ++ "-instrumentation")) = 2)
      ∧ ((Patch exampleConsts (Patch exampleConsts examplePod exampleApp)
          exampleApp).spec.initContainers.countP
        (fun x => decide (x.name = "odigos-init")) = 2)
      ∧ (Patch exampleConsts (Patch exampleConsts examplePod exampleApp) exampleApp).spec.volumes.length =
          examplePod.spec.volumes.length + 4
      ∧ Patch exampleConsts (Patch exampleConsts examplePod exampleApp) exampleApp ≠
          Patch exampleConsts examplePod exampleApp :=
  Patch_twice exampleConsts examplePod exampleApp "app" "/bin/server" (by decide) (by decide) rfl
    (by decide)

/-! ## Further properties of the loop of `Patch` -/

theorem calculateInitArgs_ne_nil (origCommand origArgs : List String) (exeFile : String) :
    calculateInitArgs origCommand origArgs exeFile ≠ [] := by
  cases origCommand <;> cases origArgs <;> simp [calculateInitArgs]

/-- A declaration without process name leaves `modifiedContainers` as it is. -/
theorem patchLanguage_of_empty (k : PackageConsts) (inst : InstrumentedApplication)
    (cs : List Container) (l : LanguageByContainer) (h : l.processName = "") :
    patchLanguage k inst cs l = cs := by
  simp [patchLanguage, h]

/-- A declaration for which `shouldPatch` fails leaves `modifiedContainers`
as it is. -/
theorem patchLanguage_of_not_shouldPatch (k : PackageConsts) (inst : InstrumentedApplication)
    (cs : List Container) (l : LanguageByContainer)
    (h : shouldPatch inst GoProgrammingLanguage l.containerName = false) :
    patchLanguage k inst cs l = cs := by
  simp [patchLanguage, h]

theorem shouldPatch_eq_false (inst : InstrumentedApplication) (s : String)
    (h : ∀ l ∈ inst.spec.languages, l.language ≠ ProgrammingLanguage.go) :
    shouldPatch inst GoProgrammingLanguage s = false := by
  rw [← Bool.not_eq_true]
  simp only [shouldPatch, List.any_eq_true, Bool.and_eq_true, decide_eq_true_eq]
  rintro ⟨l, hl, _, hgo⟩
  exact h l hl hgo

/-- A loop over declarations that all leave `modifiedContainers` as it is. -/
theorem foldl_patchLanguage_of_fixed (k : PackageConsts) (inst : InstrumentedApplication)
    (ls : List LanguageByContainer) (cs : List Container)
    (h : ∀ l ∈ ls, ∀ xs : List Container, patchLanguage k inst xs l = xs) :
    ls.foldl (patchLanguage k inst) cs = cs := by
  induction ls generalizing cs with
  | nil => rfl
  | cons l ls ih =>
    rw [List.foldl_cons, h l (List.mem_cons_self _ _)]
    exact ih cs (fun m hm => h m (List.mem_cons_of_mem _ hm))

theorem Patch_containers_foldl (k : PackageConsts) (podSpec : PodTemplateSpec)
    (inst : InstrumentedApplication) :
    (Patch k podSpec inst).spec.containers =
      inst.spec.languages.foldl (patchLanguage k inst) podSpec.spec.containers := rfl

theorem Patch_volumes_length (k : PackageConsts) (podSpec : PodTemplateSpec)
    (inst : InstrumentedApplication) :
    (Patch k podSpec inst).spec.volumes.length = podSpec.spec.volumes.length + 2 := by
  simp [Patch]

/-- The names of the containers after the loop: the names at the start, then
one sidecar name for each declaration the loop acts on, in order. -/
theorem sidecars_names (k : PackageConsts) (inst : InstrumentedApplication)
    (ls : List LanguageByContainer) :
    (sidecars k inst ls).map (fun c => c.name) =
      (ls.filter (isPatched inst)).map (fun l => l.containerName ++ "-instrumentation") := by
  induction ls with
  | nil => rfl
  | cons l ls ih =>
    unfold sidecars
    by_cases h : isPatched inst l = true
    · rw [if_pos h, List.filter_cons_of_pos h, List.map_cons, List.map_cons, ih, patchAll_name]
      rfl
    · rw [if_neg h, List.filter_cons_of_neg h, ih]

theorem isInstrumented_eq_true (podSpec : PodTemplateSpec) (inst : InstrumentedApplication) :
    IsInstrumented podSpec inst = true ↔
      ∃ l ∈ inst.spec.languages, l.language = ProgrammingLanguage.go ∧
        ∃ c ∈ podSpec.spec.containers, c.name = l.containerName ++ "-instrumentation" := by
  simp [IsInstrumented, GoProgrammingLanguage, instrumentationName, List.any_eq_true]

theorem isInstrumented_congr (t t' : PodTemplateSpec) (inst : InstrumentedApplication)
    (h : t.spec.containers = t'.spec.containers) :
    IsInstrumented t inst = IsInstrumented t' inst := by
  unfold IsInstrumented
  rw [h]

/-- An original container stays at its index and goes through the
declarations in order. -/
theorem Patch_containers_getElem? (k : PackageConsts) (podSpec : PodTemplateSpec)
    (inst : InstrumentedApplication) (i : Nat) (c : Container)
    (hc : podSpec.spec.containers[i]? = some c) :
    (Patch k podSpec inst).spec.containers[i]? = some (patchAll inst inst.spec.languages c) := by
  have hi : i < podSpec.spec.containers.length := by
    rcases List.getElem?_eq_some.1 hc with ⟨h, _⟩
    exact h
  rw [Patch_containers, List.getElem?_append_left (by simpa using hi), List.getElem?_map, hc,
    Option.map_some']

theorem calculateInitArgs_wrap (x exeFile : String) (origArgs : List String)
    (h : origArgs ≠ []) :
    calculateInitArgs [x] origArgs exeFile = exeFile :: x :: origArgs := by
  cases origArgs with
  | nil => exact absurd rfl h
  | cons a as => simp [calculateInitArgs]

/-- With every process name empty the loop leaves the containers as they
are. -/
theorem Patch_containers_of_empty (k : PackageConsts) (podSpec : PodTemplateSpec)
    (inst : InstrumentedApplication) (hall : ∀ l ∈ inst.spec.languages, l.processName = "") :
    (Patch k podSpec inst).spec.containers = podSpec.spec.containers := by
  rw [Patch_containers_foldl]
  apply foldl_patchLanguage_of_fixed
  intro l hl xs
  exact patchLanguage_of_empty k inst xs l (hall l hl)

/-! ## Comparing two runs of the loop -/

theorem eraseServiceName_patchContainer (l : LanguageByContainer) (c : Container) :
    eraseServiceName (patchContainer l c) = patchContainer l (eraseServiceName c) := by
  by_cases h : c.name = l.containerName
  · simp [patchContainer, eraseServiceName, h, targetEnv, golangServiceNameEnv]
  · simp [patchContainer, eraseServiceName, h]

/-- The sidecar of a declaration depends on the application only through the
value of `OTEL_SERVICE_NAME`. -/
theorem eraseServiceName_bpfContainer (k : PackageConsts) (inst inst' : InstrumentedApplication)
    (l : LanguageByContainer) :
    eraseServiceName (bpfContainer k inst l) = eraseServiceName (bpfContainer k inst' l) := by
  simp [eraseServiceName, bpfContainer, golangServiceNameEnv, golangExporterEndpoint,
    golangTargetExeEnv]

/-- The loop of `Patch` is `patchLoopWith` at `shouldPatch`. -/
theorem patchLoopWith_shouldPatch (k : PackageConsts) (podSpec : PodTemplateSpec)
    (inst : InstrumentedApplication) :
    patchLoopWith shouldPatch k inst podSpec.spec.containers =
      (Patch k podSpec inst).spec.containers := rfl

/-- Whatever stands where the code calls `shouldPatch`, it is asked the same
question for the two declarations of `mixedApp`, which name the same
container: the loop appends no sidecar or two, never the one sidecar of the
one Go declaration. -/
theorem patchLoopWith_mixedApp
    (sp : InstrumentedApplication → ProgrammingLanguage → String → Bool) :
    (patchLoopWith sp exampleConsts mixedApp singlePod.spec.containers).length = 1 ∨
      (patchLoopWith sp exampleConsts mixedApp singlePod.spec.containers).length = 3 := by
  have hl : mixedApp.spec.languages =
      [⟨"a", ProgrammingLanguage.go, "p"⟩, ⟨"a", ProgrammingLanguage.java, "q"⟩] := rfl
  cases h : sp mixedApp GoProgrammingLanguage "a"
  · left
    simp [patchLoopWith, patchLanguageWith, hl, singlePod, h]
  · right
    simp [patchLoopWith, patchLanguageWith, hl, singlePod, h]

/-! ## Further properties of `calculateInitArgs` and `Patch` -/

/-- C15: with arguments and no command, `calculateInitArgs` gives what it
gives for the command `[exe]`; with a non-empty command, the result without
its first element is the original command followed by the original
arguments. -/
theorem calculateInitArgs_heuristic (originalCommand originalArgs : List String) (exe : String) :
    (originalArgs ≠ [] →
        calculateInitArgs [] originalArgs exe = calculateInitArgs [exe] originalArgs exe)
      ∧ (originalCommand ≠ [] →
        (calculateInitArgs originalCommand originalArgs exe).tail =
          originalCommand ++ originalArgs) := by
  constructor
  · intro h
    cases originalArgs with
    | nil => exact absurd rfl h
    | cons a as => simp [calculateInitArgs]
  · intro h
    cases originalCommand with
    | nil => exact absurd rfl h
    | cons c cs => cases originalArgs <;> simp [calculateInitArgs]

/-- On values: a container named by no declaration is left as it is, at its
index; and with no Go declaration the loop changes no container. -/
theorem Patch_frame_value (k : PackageConsts) (podSpec : PodTemplateSpec)
    (inst : InstrumentedApplication) :
    (∀ (i : Nat) (c : Container), podSpec.spec.containers[i]? = some c →
        (∀ l ∈ inst.spec.languages, l.containerName ≠ c.name) →
        (Patch k podSpec inst).spec.containers[i]? = some c)
      ∧ ((∀ l ∈ inst.spec.languages, l.language ≠ ProgrammingLanguage.go) →
        (Patch k podSpec inst).spec.containers = podSpec.spec.containers ∧
        (Patch k podSpec inst).spec.initContainers =
          podSpec.spec.initContainers ++ [odigosInitContainer] ∧
        (Patch k podSpec inst).spec.volumes.length = podSpec.spec.volumes.length + 2 ∧
        (Patch k podSpec inst).spec.shareProcessNamespace = some true) := by
  constructor
  · intro i c hc hno
    have hi : i < podSpec.spec.containers.length := by
      rcases List.getElem?_eq_some.1 hc with ⟨h, _⟩
      exact h
    rw [Patch_containers, List.getElem?_append_left (by simpa using hi), List.getElem?_map, hc,
      Option.map_some', patchAll_of_ne inst _ c (fun l hl _ => hno l hl)]
  · intro hno
    refine ⟨?_, rfl, Patch_volumes_length k podSpec inst, rfl⟩
    rw [Patch_containers_foldl]
    apply foldl_patchLanguage_of_fixed
    intro l _ xs
    exact patchLanguage_of_not_shouldPatch k inst xs l (shouldPatch_eq_false inst _ hno)

/-- C14: with a spec of one Go declaration with a non-empty process name for
a container name that no container of the template has, `Patch` rewrites
nothing: the containers after it are the original ones, each unchanged,
followed by the sidecar `<containerName>-instrumentation` with that process
name as target executable; the init container, the two volumes and the
process-namespace flag are added as always. -/
theorem Patch_absent_container (k : PackageConsts) (podSpec : PodTemplateSpec)
    (inst : InstrumentedApplication) (containerName processName : String)
    (hspec : inst.spec.languages =
      [{ containerName := containerName, language := ProgrammingLanguage.go,
         processName := processName }])
    (hp : processName ≠ "")
    (hno : ∀ c ∈ podSpec.spec.containers, c.name ≠ containerName) :
    (Patch k podSpec inst).spec.containers =
        podSpec.spec.containers ++
          [bpfContainer k inst ⟨containerName, ProgrammingLanguage.go, processName⟩]
      ∧ (bpfContainer k inst ⟨containerName, ProgrammingLanguage.go, processName⟩).name =
          containerName ++ "-instrumentation"
      ∧ (bpfContainer k inst ⟨containerName, ProgrammingLanguage.go, processName⟩).env[3]? =
          some { name := "OTEL_TARGET_EXE", value := processName, valueFrom := none }
      ∧ (Patch k podSpec inst).spec.initContainers =
          podSpec.spec.initContainers ++ [odigosInitContainer]
      ∧ (Patch k podSpec inst).spec.volumes =
          podSpec.spec.volumes ++
            [ { name := "kernel-debug"
                volumeSource :=
                  { hostPath := some { path := "/sys/kernel/debug" }, emptyDir := none } },
              { name := "odigos"
                volumeSource := { hostPath := none, emptyDir := some { medium := "" } } } ]
      ∧ (Patch k podSpec inst).spec.shareProcessNamespace = some true := by
  have hmem : (⟨containerName, ProgrammingLanguage.go, processName⟩ : LanguageByContainer) ∈
      inst.spec.languages := by
    rw [hspec]
    exact List.mem_singleton_self _
  have hpat : isPatched inst ⟨containerName, ProgrammingLanguage.go, processName⟩ = true :=
    isPatched_of_mem inst _ hmem rfl hp
  refine ⟨?_, rfl, rfl, rfl, rfl, rfl⟩
  rw [Patch_containers]
  congr 1
  · conv => rhs; rw [← List.map_id podSpec.spec.containers]
    apply List.map_congr_left
    intro c hc
    apply patchAll_of_ne
    intro l hl _
    rw [hspec, List.mem_singleton] at hl
    rw [hl]
    exact (hno c hc).symm
  · rw [hspec]
    simp [sidecars, hpat, patchAll_nil]

/-- C14, on `examplePod`: the declared container `worker` does not exist. -/
theorem Patch_absent_container_witness :
    (Patch exampleConsts examplePod absentApp).spec.containers =
        examplePod.spec.containers ++
          [bpfContainer exampleConsts absentApp ⟨"worker", ProgrammingLanguage.go, "/bin/worker"⟩]
      ∧ (bpfContainer exampleConsts absentApp ⟨"worker", ProgrammingLanguage.go, "/bin/worker"⟩).name =
          "worker" ++ "-instrumentation" :=
  let h := Patch_absent_container exampleConsts examplePod absentApp "worker" "/bin/worker" rfl
    (by decide) (by decide)
  ⟨h.1, h.2.1⟩

/-- C16: when the spec has a Go declaration with a non-empty process name,
`IsInstrumented` holds of the template after `Patch`; and when `IsInstrumented`
holds of a template, it holds of the template after `Patch`. -/
theorem Patch_IsInstrumented (k : PackageConsts) (podSpec : PodTemplateSpec)
    (inst : InstrumentedApplication) :
    ((∃ l ∈ inst.spec.languages, l.language = ProgrammingLanguage.go ∧ l.processName ≠ "") →
        IsInstrumented (Patch k podSpec inst) inst = true)
      ∧ (IsInstrumented podSpec inst = true →
        IsInstrumented (Patch k podSpec inst) inst = true) := by
  constructor
  · rintro ⟨l, hl, hgo, hp⟩
    rw [isInstrumented_eq_true]
    refine ⟨l, hl, hgo, ?_⟩
    have hmem : l.containerName ++ "-instrumentation" ∈
        (sidecars k inst inst.spec.languages).map (fun c => c.name) := by
      rw [sidecars_names]
      exact List.mem_map_of_mem _
        (List.mem_filter.2 ⟨hl, isPatched_of_mem inst l hl hgo hp⟩)
    obtain ⟨c, hc, hname⟩ := List.mem_map.1 hmem
    refine ⟨c, ?_, hname⟩
    rw [Patch_containers]
    exact List.mem_append_right _ hc
  · intro h
    rw [isInstrumented_eq_true] at h ⊢
    obtain ⟨l, hl, hgo, c, hc, hname⟩ := h
    refine ⟨l, hl, hgo, patchAll inst inst.spec.languages c, ?_, ?_⟩
    · rw [Patch_containers]
      exact List.mem_append_left _ (List.mem_map_of_mem _ hc)
    · rw [patchAll_name, hname]

/-- C17: when every declaration of the spec has an empty process name,
`Patch` leaves the container list as it is, so that `IsInstrumented` gives
after it what it gave before, while one init container and two volumes have
been added; and `n` successive calls add `n` init containers and `2 * n`
volumes, the container list and `IsInstrumented` still being as at the
start. -/
theorem Patch_unguarded (k : PackageConsts) (podSpec : PodTemplateSpec)
    (inst : InstrumentedApplication)
    (hall : ∀ l ∈ inst.spec.languages, l.processName = "") :
    (Patch k podSpec inst).spec.containers = podSpec.spec.containers
      ∧ IsInstrumented (Patch k podSpec inst) inst = IsInstrumented podSpec inst
      ∧ (Patch k podSpec inst).spec.initContainers.length =
          podSpec.spec.initContainers.length + 1
      ∧ (Patch k podSpec inst).spec.volumes.length = podSpec.spec.volumes.length + 2
      ∧ ∀ n : Nat,
          (Nat.iterate (fun t => Patch k t inst) n podSpec).spec.containers =
              podSpec.spec.containers
            ∧ IsInstrumented (Nat.iterate (fun t => Patch k t inst) n podSpec) inst =
              IsInstrumented podSpec inst
            ∧ (Nat.iterate (fun t => Patch k t inst) n podSpec).spec.initContainers =
              podSpec.spec.initContainers ++ List.replicate n odigosInitContainer
            ∧ (Nat.iterate (fun t => Patch k t inst) n podSpec).spec.initContainers.length =
              podSpec.spec.initContainers.length + n
            ∧ (Nat.iterate (fun t => Patch k t inst) n podSpec).spec.volumes.length =
              podSpec.spec.volumes.length + 2 * n := by
  have hcont : ∀ t : PodTemplateSpec, (Patch k t inst).spec.containers = t.spec.containers :=
    fun t => Patch_containers_of_empty k t inst hall
  refine ⟨hcont podSpec, isInstrumented_congr _ _ inst (hcont podSpec), ?_,
    Patch_volumes_length k podSpec inst, ?_⟩
  · rw [Patch_initContainers_append]
    simp
  · intro n
    induction n with
    | zero => simp
    | succ n ih =>
      obtain ⟨h1, h2, h3, h4, h5⟩ := ih
      rw [Function.iterate_succ_apply']
      refine ⟨?_, ?_, ?_, ?_, ?_⟩
      · rw [hcont, h1]
      · rw [isInstrumented_congr _ _ inst (hcont _), h2]
      · rw [Patch_initContainers_append, h3, List.replicate_succ', List.append_assoc]
      · rw [Patch_initContainers_append, List.length_append, h4]
        simp
        omega
      · rw [Patch_volumes_length, h5]
        omega

/-- C17, on `examplePod`: three calls with `unnamedApp`. -/
theorem Patch_unguarded_witness :
    (Nat.iterate (fun t => Patch exampleConsts t unnamedApp) 3 examplePod).spec.containers =
        examplePod.spec.containers
      ∧ IsInstrumented (Nat.iterate (fun t => Patch exampleConsts t unnamedApp) 3 examplePod)
          unnamedApp = IsInstrumented examplePod unnamedApp
      ∧ (Nat.iterate (fun t => Patch exampleConsts t unnamedApp) 3 examplePod).spec.initContainers =
        examplePod.spec.initContainers ++ List.replicate 3 odigosInitContainer
      ∧ (Nat.iterate (fun t => Patch exampleConsts t unnamedApp) 3
          examplePod).spec.initContainers.length = examplePod.spec.initContainers.length + 3
      ∧ (Nat.iterate (fun t => Patch exampleConsts t unnamedApp) 3 examplePod).spec.volumes.length =
        examplePod.spec.volumes.length + 2 * 3 :=
  (Patch_unguarded exampleConsts examplePod unnamedApp (by decide)).2.2.2.2 3

/-- C18: with a spec of one Go declaration with the non-empty process name
`p` for a container of the template with command `cmd` and arguments `as`,
two successive calls of `Patch` leave that container, at its index, with the
command `["/odigos/init"]`, the arguments
`[p, "/odigos/init"] ++ calculateInitArgs cmd as p`, its original volume
mounts followed by the mount of `odigos` twice, and its original environment
followed by `HOST_IP`, `POD_NAME`, `POD_NAMESPACE` twice.  (The distinctness
of the container names is not needed.) -/
theorem Patch_twice_target (k : PackageConsts) (podSpec : PodTemplateSpec)
    (inst : InstrumentedApplication) (containerName p : String) (i : Nat) (c : Container)
    (hspec : inst.spec.languages =
      [{ containerName := containerName, language := ProgrammingLanguage.go, processName := p }])
    (hp : p ≠ "")
    (hc : podSpec.spec.containers[i]? = some c) (hname : c.name = containerName) :
    (Patch k (Patch k podSpec inst) inst).spec.containers[i]? =
      some { c with
        command := ["/odigos/init"]
        args := [p, "/odigos/init"] ++ calculateInitArgs c.command c.args p
        volumeMounts := c.volumeMounts ++
          [ { name := "odigos", mountPath := "/odigos" },
            { name := "odigos", mountPath := "/odigos" } ]
        env := c.env ++
          [ { name := "HOST_IP", value := ""
              valueFrom := some { fieldRef := some { fieldPath := "status.hostIP" } } },
            { name := "POD_NAME", value := ""
              valueFrom := some { fieldRef := some { fieldPath := "metadata.name" } } },
            { name := "POD_NAMESPACE", value := ""
              valueFrom := some { fieldRef := some { fieldPath := "metadata.namespace" } } },
            { name := "HOST_IP", value := ""
              valueFrom := some { fieldRef := some { fieldPath := "status.hostIP" } } },
            { name := "POD_NAME", value := ""
              valueFrom := some { fieldRef := some { fieldPath := "metadata.name" } } },
            { name := "POD_NAMESPACE", value := ""
              valueFrom := some { fieldRef := some { fieldPath := "metadata.namespace" } } } ] } := by
  have hmem : (⟨containerName, ProgrammingLanguage.go, p⟩ : LanguageByContainer) ∈
      inst.spec.languages := by
    rw [hspec]
    exact List.mem_singleton_self _
  have hpat : isPatched inst ⟨containerName, ProgrammingLanguage.go, p⟩ = true :=
    isPatched_of_mem inst _ hmem rfl hp
  have hone : ∀ x : Container, patchAll inst inst.spec.languages x =
      patchContainer ⟨containerName, ProgrammingLanguage.go, p⟩ x := by
    intro x
    rw [hspec, patchAll_cons, patchAll_nil, if_pos hpat]
  rw [Patch_containers_getElem? k _ inst i _ (Patch_containers_getElem? k podSpec inst i c hc),
    hone, hone]
  simp [patchContainer, hname, initExePath, initVolumeName, initMountPath, targetEnv,
    calculateInitArgs_wrap _ _ _ (calculateInitArgs_ne_nil c.command c.args p)]

/-- C18, on `examplePod`: the container `app` after two calls. -/
theorem Patch_twice_target_witness :
    (Patch exampleConsts (Patch exampleConsts examplePod exampleApp) exampleApp).spec.containers[0]? =
      some
        { name := "app", image := "shop/app:1"
          command := ["/odigos/init"]
          args := ["/bin/server", "/odigos/init", "/bin/server", "server", "--flag"]
          env :=
            [ { name := "MODE", value := "prod" },
              { name := "HOST_IP"
                valueFrom := some { fieldRef := some { fieldPath := "status.hostIP" } } },
              { name := "POD_NAME"
                valueFrom := some { fieldRef := some { fieldPath := "metadata.name" } } },
              { name := "POD_NAMESPACE"
                valueFrom := some { fieldRef := some { fieldPath := "metadata.namespace" } } },
              { name := "HOST_IP"
                valueFrom := some { fieldRef := some { fieldPath := "status.hostIP" } } },
              { name := "POD_NAME"
                valueFrom := some { fieldRef := some { fieldPath := "metadata.name" } } },
              { name := "POD_NAMESPACE"
                valueFrom := some { fieldRef := some { fieldPath := "metadata.namespace" } } } ]
          volumeMounts :=
            [ { name := "data", mountPath := "/data" }, { name := "odigos", mountPath := "/odigos" },
              { name := "odigos", mountPath := "/odigos" } ] } :=
  Patch_twice_target exampleConsts examplePod exampleApp "app" "/bin/server" 0 _ rfl (by decide)
    rfl rfl

/-! ## The loop with any test in the place of `shouldPatch` -/

theorem patchLanguageWith_of_empty
    (sp : InstrumentedApplication → ProgrammingLanguage → String → Bool) (k : PackageConsts)
    (inst : InstrumentedApplication) (cs : List Container) (l : LanguageByContainer)
    (h : l.processName = "") : patchLanguageWith sp k inst cs l = cs := by
  simp [patchLanguageWith, h]

theorem foldl_patchLanguageWith_of_fixed
    (sp : InstrumentedApplication → ProgrammingLanguage → String → Bool) (k : PackageConsts)
    (inst : InstrumentedApplication) (ls : List LanguageByContainer) (cs : List Container)
    (h : ∀ l ∈ ls, sp inst GoProgrammingLanguage l.containerName = false) :
    ls.foldl (patchLanguageWith sp k inst) cs = cs := by
  induction ls generalizing cs with
  | nil => rfl
  | cons l ls ih =>
    have hl : patchLanguageWith sp k inst cs l = cs := by
      simp [patchLanguageWith, h l (List.mem_cons_self _ _)]
    rw [List.foldl_cons, hl]
    exact ih cs (fun m hm => h m (List.mem_cons_of_mem _ hm))

/-- Two applications for which the test gives the same answer at `l` give,
at `l`, the same containers up to the values of `OTEL_SERVICE_NAME`. -/
theorem patchLanguageWith_erase
    (sp : InstrumentedApplication → ProgrammingLanguage → String → Bool) (k : PackageConsts)
    (inst inst' : InstrumentedApplication) (l : LanguageByContainer)
    (hsp : sp inst GoProgrammingLanguage l.containerName =
      sp inst' GoProgrammingLanguage l.containerName)
    (cs cs' : List Container) (h : cs.map eraseServiceName = cs'.map eraseServiceName) :
    (patchLanguageWith sp k inst cs l).map eraseServiceName =
      (patchLanguageWith sp k inst' cs' l).map eraseServiceName := by
  unfold patchLanguageWith
  rw [hsp]
  by_cases hq : sp inst' GoProgrammingLanguage l.containerName = true
  · by_cases hn : l.processName = ""
    · rw [if_pos hq, if_pos hn, if_pos hq, if_pos hn, h]
    · rw [if_pos hq, if_neg hn, if_pos hq, if_neg hn, List.map_append, List.map_append,
        List.map_map, List.map_map]
      have hcomm : eraseServiceName ∘ patchContainer l = patchContainer l ∘ eraseServiceName := by
        funext c
        exact eraseServiceName_patchContainer l c
      rw [hcomm, ← List.map_map, ← List.map_map, h, List.map_singleton, List.map_singleton,
        eraseServiceName_bpfContainer k inst inst' l]
  · rw [if_neg hq, if_neg hq, h]

theorem foldl_patchLanguageWith_erase
    (sp : InstrumentedApplication → ProgrammingLanguage → String → Bool) (k : PackageConsts)
    (inst inst' : InstrumentedApplication) (ls : List LanguageByContainer)
    (hsp : ∀ l ∈ ls, sp inst GoProgrammingLanguage l.containerName =
      sp inst' GoProgrammingLanguage l.containerName)
    (cs cs' : List Container) (h : cs.map eraseServiceName = cs'.map eraseServiceName) :
    (ls.foldl (patchLanguageWith sp k inst) cs).map eraseServiceName =
      (ls.foldl (patchLanguageWith sp k inst') cs').map eraseServiceName := by
  induction ls generalizing cs cs' with
  | nil => exact h
  | cons l ls ih =>
    rw [List.foldl_cons, List.foldl_cons]
    apply ih (fun m hm => hsp m (List.mem_cons_of_mem _ hm))
    exact patchLanguageWith_erase sp k inst inst' l (hsp l (List.mem_cons_self _ _)) cs cs' h

/-- The names of the containers after the loop: the names at the start, then
one sidecar name for each declaration that passes the test and has a process
name, in order. -/
theorem foldl_patchLanguageWith_names
    (sp : InstrumentedApplication → ProgrammingLanguage → String → Bool) (k : PackageConsts)
    (inst : InstrumentedApplication) (ls : List LanguageByContainer) (cs : List Container) :
    (ls.foldl (patchLanguageWith sp k inst) cs).map (fun c => c.name) =
      cs.map (fun c => c.name) ++
        (ls.filter (fun l => sp inst GoProgrammingLanguage l.containerName &&
          decide (l.processName ≠ ""))).map (fun l => l.containerName ++ "-instrumentation") := by
  induction ls generalizing cs with
  | nil => simp
  | cons l ls ih =>
    rw [List.foldl_cons, ih]
    have hnames : ∀ xs : List Container,
        (xs.map (patchContainer l)).map (fun c => c.name) = xs.map (fun c => c.name) := by
      intro xs
      rw [List.map_map]
      exact List.map_congr_left (fun c _ => patchContainer_name l c)
    unfold patchLanguageWith
    by_cases hq : sp inst GoProgrammingLanguage l.containerName = true
    · by_cases hn : l.processName = ""
      · simp [hq, hn]
      · simp [hq, hn, hnames, bpfContainer, instrumentationName]
    · simp [hq]

/-- With the test answering as the spec says, the declarations that get a
sidecar are the Go declarations with a process name. -/
theorem filter_gateBySpec
    (sp : InstrumentedApplication → ProgrammingLanguage → String → Bool)
    (inst : InstrumentedApplication) (ls : List LanguageByContainer)
    (h : gateBySpec sp inst ls) :
    ls.filter (fun l => sp inst GoProgrammingLanguage l.containerName &&
        decide (l.processName ≠ "")) =
      ls.filter (fun l => decide (l.language = ProgrammingLanguage.go) &&
        decide (l.processName ≠ "")) := by
  apply List.filter_congr
  intro l hl
  rw [h l hl]
  rfl

/-- When no container is declared both as Go and with another language,
`shouldPatch` answers at every declaration as the spec says. -/
theorem gateBySpec_shouldPatch (inst : InstrumentedApplication)
    (hcons : ∀ l ∈ inst.spec.languages, ∀ m ∈ inst.spec.languages,
      l.containerName = m.containerName → l.language = ProgrammingLanguage.go →
      m.language = ProgrammingLanguage.go) :
    gateBySpec shouldPatch inst inst.spec.languages := by
  intro m hm
  rw [Bool.eq_iff_iff]
  simp only [shouldPatch, GoProgrammingLanguage, List.any_eq_true, Bool.and_eq_true,
    decide_eq_true_eq]
  constructor
  · rintro ⟨l, hl, hname, hgo⟩
    exact hcons l hl m hm hname hgo
  · intro hgo
    exact ⟨m, hm, rfl, hgo⟩

/-! ## Skipped declarations and the appended sidecars -/

/-- C11: a declaration `d` with an empty process name is skipped without
stopping the loop, whatever test stands where the code calls `shouldPatch`:
the loop body leaves every container list as it is at `d` (no sidecar, no
change to any container), and the loop over the whole list gives what the
loop over the declarations before and after `d` gives.  When the test gives
for each of those declarations the same answer on the spec with `d` and on
the spec without it, as it does when it answers as §4.1, step 2 says (by the
language of the declaration), the resulting container list is that of the
spec without `d`, apart from the values of `OTEL_SERVICE_NAME`, whose rule
counts all declarations. -/
theorem Patch_skips_empty_processName
    (sp : InstrumentedApplication → ProgrammingLanguage → String → Bool) (k : PackageConsts)
    (inst inst' : InstrumentedApplication) (ls₁ ls₂ : List LanguageByContainer)
    (d : LanguageByContainer) (containers : List Container)
    (hspec : inst.spec.languages = ls₁ ++ d :: ls₂) (hd : d.processName = "")
    (hrest : inst'.spec.languages = ls₁ ++ ls₂) :
    (∀ cs : List Container, patchLanguageWith sp k inst cs d = cs)
      ∧ patchLoopWith sp k inst containers =
          (ls₁ ++ ls₂).foldl (patchLanguageWith sp k inst) containers
      ∧ ((∀ l ∈ ls₁ ++ ls₂, sp inst GoProgrammingLanguage l.containerName =
            sp inst' GoProgrammingLanguage l.containerName) →
          (patchLoopWith sp k inst containers).map eraseServiceName =
            (patchLoopWith sp k inst' containers).map eraseServiceName)
      ∧ (gateBySpec sp inst (ls₁ ++ ls₂) → gateBySpec sp inst' (ls₁ ++ ls₂) →
          (patchLoopWith sp k inst containers).map eraseServiceName =
            (patchLoopWith sp k inst' containers).map eraseServiceName) := by
  have hskip : ∀ cs : List Container, patchLanguageWith sp k inst cs d = cs :=
    fun cs => patchLanguageWith_of_empty sp k inst cs d hd
  have hloop : patchLoopWith sp k inst containers =
      (ls₁ ++ ls₂).foldl (patchLanguageWith sp k inst) containers := by
    unfold patchLoopWith
    rw [hspec, List.foldl_append, List.foldl_cons, hskip, List.foldl_append]
  have hsame : (∀ l ∈ ls₁ ++ ls₂, sp inst GoProgrammingLanguage l.containerName =
        sp inst' GoProgrammingLanguage l.containerName) →
      (patchLoopWith sp k inst containers).map eraseServiceName =
        (patchLoopWith sp k inst' containers).map eraseServiceName := by
    intro hagree
    rw [hloop]
    unfold patchLoopWith
    rw [hrest]
    exact foldl_patchLanguageWith_erase sp k inst inst' (ls₁ ++ ls₂) hagree _ _ rfl
  exact ⟨hskip, hloop, hsame,
    fun hg hg' => hsame (fun l hl => (hg l hl).trans (hg' l hl).symm)⟩

/-- C11, on `examplePod` with `shouldPatch` as the test: `proxyApp` is
`exampleApp` with a declaration without process name in front. -/
theorem Patch_skips_empty_processName_witness :
    (∀ cs : List Container,
        patchLanguage exampleConsts proxyApp cs ⟨"proxy", ProgrammingLanguage.go, ""⟩ = cs)
      ∧ (Patch exampleConsts examplePod proxyApp).spec.containers =
          ([] ++ [exampleLanguage]).foldl (patchLanguage exampleConsts proxyApp)
            examplePod.spec.containers
      ∧ (Patch exampleConsts examplePod proxyApp).spec.containers.map eraseServiceName =
          (Patch exampleConsts examplePod exampleApp).spec.containers.map eraseServiceName :=
  let h := Patch_skips_empty_processName shouldPatch exampleConsts proxyApp exampleApp []
    [exampleLanguage] ⟨"proxy", ProgrammingLanguage.go, ""⟩ examplePod.spec.containers rfl rfl rfl
  ⟨h.1, h.2.1, h.2.2.2 (by decide) (by decide)⟩

/-- C12, as stated, fails: in `mixedApp` the container `a` is declared as Go
and as Java, both with a process name, so the spec has one Go declaration
with a process name and the claim asks for two containers at the end.  The
code asks its test about the container name `a` for both declarations; no
function in the place of `shouldPatch` gives two containers, and `Patch` does
not. -/
theorem Patch_container_names_counterexample :
    singlePod.spec.containers.length = 1
      ∧ (mixedApp.spec.languages.filter (fun l =>
          decide (l.language = ProgrammingLanguage.go) && decide (l.processName ≠ ""))).length = 1
      ∧ (¬ ∃ sp : InstrumentedApplication → ProgrammingLanguage → String → Bool,
          (patchLoopWith sp exampleConsts mixedApp singlePod.spec.containers).length = 1 + 1)
      ∧ (Patch exampleConsts singlePod mixedApp).spec.containers.length ≠ 1 + 1 := by
  refine ⟨rfl, rfl, ?_, ?_⟩
  · rintro ⟨sp, h⟩
    rcases patchLoopWith_mixedApp sp with h1 | h3
    · omega
    · omega
  · intro h
    rcases patchLoopWith_mixedApp shouldPatch with h1 | h3
    · exact absurd (h1.symm.trans h) (by decide)
    · exact absurd (h3.symm.trans h) (by decide)

/-- C12, amended: when no container is declared both as Go and with another
language, the containers after `Patch` are the original containers, at
their positions and with their names, followed by one sidecar for each Go
declaration with a non-empty process name, in the order of the declarations,
the sidecar of `l` being named `<l.containerName>-instrumentation`; the
number of containers grows by the number of these declarations.  The same
holds of the loop with any test in the place of `shouldPatch` that answers as
§4.1, step 2 says. -/
theorem Patch_container_names (k : PackageConsts) (podSpec : PodTemplateSpec)
    (inst : InstrumentedApplication)
    (hcons : ∀ l ∈ inst.spec.languages, ∀ m ∈ inst.spec.languages,
      l.containerName = m.containerName → l.language = ProgrammingLanguage.go →
      m.language = ProgrammingLanguage.go) :
    ((Patch k podSpec inst).spec.containers.map (fun c => c.name) =
        podSpec.spec.containers.map (fun c => c.name) ++
          (inst.spec.languages.filter (fun l =>
            decide (l.language = ProgrammingLanguage.go) &&
              decide (l.processName ≠ ""))).map
            (fun l => l.containerName ++ "-instrumentation")
      ∧ (Patch k podSpec inst).spec.containers.length =
        podSpec.spec.containers.length +
          (inst.spec.languages.filter (fun l =>
            decide (l.language = ProgrammingLanguage.go) &&
              decide (l.processName ≠ ""))).length)
      ∧ ∀ sp : InstrumentedApplication → ProgrammingLanguage → String → Bool,
          gateBySpec sp inst inst.spec.languages →
          (patchLoopWith sp k inst podSpec.spec.containers).map (fun c => c.name) =
              podSpec.spec.containers.map (fun c => c.name) ++
                (inst.spec.languages.filter (fun l =>
                  decide (l.language = ProgrammingLanguage.go) &&
                    decide (l.processName ≠ ""))).map
                  (fun l => l.containerName ++ "-instrumentation")
            ∧ (patchLoopWith sp k inst podSpec.spec.containers).length =
              podSpec.spec.containers.length +
                (inst.spec.languages.filter (fun l =>
                  decide (l.language = ProgrammingLanguage.go) &&
                    decide (l.processName ≠ ""))).length := by
  have hgen : ∀ sp : InstrumentedApplication → ProgrammingLanguage → String → Bool,
      gateBySpec sp inst inst.spec.languages →
      (patchLoopWith sp k inst podSpec.spec.containers).map (fun c => c.name) =
          podSpec.spec.containers.map (fun c => c.name) ++
            (inst.spec.languages.filter (fun l =>
              decide (l.language = ProgrammingLanguage.go) &&
                decide (l.processName ≠ ""))).map
              (fun l => l.containerName ++ "-instrumentation")
        ∧ (patchLoopWith sp k inst podSpec.spec.containers).length =
          podSpec.spec.containers.length +
            (inst.spec.languages.filter (fun l =>
              decide (l.language = ProgrammingLanguage.go) &&
                decide (l.processName ≠ ""))).length := by
    intro sp hg
    have hnames := foldl_patchLanguageWith_names sp k inst inst.spec.languages
      podSpec.spec.containers
    rw [filter_gateBySpec sp inst _ hg] at hnames
    refine ⟨hnames, ?_⟩
    have hlen := congrArg List.length hnames
    simpa [patchLoopWith] using hlen
  exact ⟨hgen shouldPatch (gateBySpec_shouldPatch inst hcons), hgen⟩

/-- C12, amended, on `examplePod`: the one Go declaration of `exampleApp`. -/
theorem Patch_container_names_witness :
    (Patch exampleConsts examplePod exampleApp).spec.containers.map (fun c => c.name) =
        ["app", "proxy"] ++ ["app" ++ "-instrumentation"]
      ∧ (Patch exampleConsts examplePod exampleApp).spec.containers.length = 2 + 1 :=
  (Patch_container_names exampleConsts examplePod exampleApp (by decide)).1

/-! ## Slices and their backing arrays -/

section
variable {α : Type}

theorem getElem?_map_range {β : Type} (f : Nat → β) (n i : Nat) :
    ((List.range n).map f)[i]? = if i < n then some (f i) else none := by
  by_cases h : i < n
  · simp [h, List.getElem?_range h]
  · rw [List.getElem?_eq_none (by simpa using Nat.le_of_not_lt h), if_neg h]

theorem arrayAt_of_le (store : List (List α)) (j : Nat) (h : store.length ≤ j) :
    arrayAt store j = [] := by
  simp [arrayAt, List.getElem?_eq_none h]

theorem arrayAt_set (store : List (List α)) (i j : Nat) (w : List α) :
    arrayAt (store.set i w) j = if i = j ∧ i < store.length then w else arrayAt store j := by
  unfold arrayAt
  by_cases h : i = j
  · subst h
    by_cases hi : i < store.length
    · simp [hi]
    · have h1 : (store.set i w)[i]? = none :=
        List.getElem?_eq_none (by simpa using Nat.le_of_not_lt hi)
      have h2 : store[i]? = none := List.getElem?_eq_none (Nat.le_of_not_lt hi)
      simp [hi, h1, h2]
  · simp [h, List.getElem?_set_ne h]

theorem arrayAt_append (store : List (List α)) (w : List α) (j : Nat) :
    arrayAt (store ++ [w]) j =
      if j < store.length then arrayAt store j else if j = store.length then w else [] := by
  unfold arrayAt
  by_cases h : j < store.length
  · simp [h, List.getElem?_append_left h]
  · by_cases h2 : j = store.length
    · subst h2
      simp
    · have h3 : (store ++ [w]).length ≤ j := by
        simp
        omega
      simp [h, h2, List.getElem?_eq_none h3]

theorem Slice.apart_of_valid_fresh (store : List (List α)) (t u : Slice) (ht : t.Valid store)
    (hu : u.arr = store.length) : t.Apart u ∧ u.Apart t := by
  obtain ⟨htlen, htcap⟩ := ht
  constructor
  · intro h
    rw [arrayAt_of_le store t.arr (by omega)] at htcap
    simp only [List.length_nil] at htcap
    omega
  · intro h
    rw [arrayAt_of_le store t.arr (by omega)] at htcap
    simp only [List.length_nil] at htcap
    omega

variable [Inhabited α]

theorem getElem?_eq_cellAt (a : List α) (j : Nat) :
    a[j]? = if j < a.length then some (cellAt a j) else none := by
  by_cases h : j < a.length
  · simp [h, cellAt]
  · simp [h, List.getElem?_eq_none (Nat.le_of_not_lt h)]

theorem cellAt_map_range (f : Nat → α) (n j : Nat) (h : j < n) :
    cellAt ((List.range n).map f) j = f j := by
  simp [cellAt, getElem?_map_range, h]

theorem cellAt_append_left (L P : List α) (j : Nat) (h : j < L.length) :
    cellAt (L ++ P) j = cellAt L j := by
  simp [cellAt, List.getElem?_append_left h]

theorem cellAt_append_right (L P : List α) (j : Nat) (h : L.length ≤ j) :
    cellAt (L ++ P) j = cellAt P (j - L.length) := by
  simp [cellAt, List.getElem?_append_right h]

theorem read_length (store : List (List α)) (s : Slice) : (s.read store).length = s.len := by
  simp [Slice.read]

theorem writeCells_length (a : List α) (p : Nat) (xs : List α) :
    (writeCells a p xs).length = a.length := by
  simp [writeCells]

theorem cellAt_writeCells (a : List α) (p : Nat) (xs : List α) (j : Nat) (hj : j < a.length) :
    cellAt (writeCells a p xs) j =
      if p ≤ j ∧ j < p + xs.length then cellAt xs (j - p) else cellAt a j :=
  cellAt_map_range _ _ _ hj

theorem cellAt_read (store : List (List α)) (s : Slice) (i : Nat) (h : i < s.len) :
    cellAt (s.read store) i = cellAt (arrayAt store s.arr) (s.off + i) :=
  cellAt_map_range _ _ _ h

/-- The result of `append` reads as the old elements followed by the new
ones. -/
theorem Slice.read_append (grow : Nat → Nat → Nat) (store : List (List α)) (s : Slice)
    (xs : List α) (hv : s.Valid store) :
    (s.append grow store xs).2.read (s.append grow store xs).1 = s.read store ++ xs := by
  obtain ⟨hlen, hcap⟩ := hv
  apply List.ext_getElem?
  intro i
  rw [List.getElem?_append, read_length, getElem?_eq_cellAt xs]
  unfold Slice.append
  split
  · next hfit =>
    simp only [Slice.read, getElem?_map_range, arrayAt_set]
    by_cases harr : s.arr < store.length
    · by_cases hi : i < s.len
      · have h1 : s.off + i < (arrayAt store s.arr).length := by omega
        have h2 : i < s.len + xs.length := by omega
        have h3 : ¬ (s.off + s.len ≤ s.off + i ∧ s.off + i < s.off + s.len + xs.length) := by
          omega
        simp only [harr, hi, h2, and_self, if_true, cellAt_writeCells _ _ _ _ h1, if_neg h3]
      · by_cases hi2 : i < s.len + xs.length
        · have h1 : s.off + i < (arrayAt store s.arr).length := by omega
          have h3 : s.off + s.len ≤ s.off + i ∧ s.off + i < s.off + s.len + xs.length := by
            omega
          have h4 : s.off + i - (s.off + s.len) = i - s.len := by omega
          have h5 : i - s.len < xs.length := by omega
          simp only [harr, hi, hi2, and_self, if_true, if_false, cellAt_writeCells _ _ _ _ h1,
            if_pos h3, h4, if_pos h5]
        · have h5 : ¬ i - s.len < xs.length := by omega
          simp only [hi, hi2, if_false, if_neg h5]
    · have h0 : arrayAt store s.arr = [] := arrayAt_of_le store _ (Nat.le_of_not_lt harr)
      rw [h0] at hcap
      simp only [List.length_nil] at hcap
      have hl : ¬ i < s.len + xs.length := by omega
      have hl2 : ¬ i < s.len := by omega
      have hl3 : ¬ i - s.len < xs.length := by omega
      simp only [hl, hl2, hl3, if_false]
  · simp only [Slice.read, getElem?_map_range, arrayAt_append, Nat.lt_irrefl, if_false, if_true,
      Nat.zero_add]
    by_cases hi : i < s.len
    · have h2 : i < s.len + xs.length := by omega
      have h6 : i < (List.map (fun i => cellAt (arrayAt store s.arr) (s.off + i))
          (List.range s.len) ++ xs).length := by
        simp
        omega
      have h7 : i < (List.map (fun i => cellAt (arrayAt store s.arr) (s.off + i))
          (List.range s.len)).length := by
        simp
        omega
      simp only [hi, h2, if_true]
      rw [List.append_assoc, cellAt_append_left _ _ _ h7, cellAt_map_range _ _ _ hi]
    · by_cases hi2 : i < s.len + xs.length
      · have h5 : i - s.len < xs.length := by omega
        have h6 : i < (List.map (fun i => cellAt (arrayAt store s.arr) (s.off + i))
            (List.range s.len) ++ xs).length := by
          simp
          omega
        simp only [hi, hi2, if_true, if_false, if_pos h5]
        rw [cellAt_append_left _ _ _ h6, cellAt_append_right _ _ _ (by simp; omega)]
        simp
      · have h5 : ¬ i - s.len < xs.length := by omega
        simp only [hi, hi2, if_false, if_neg h5]

/-- A slice that the spare capacity of `s` does not reach reads after the
`append` as before. -/
theorem Slice.read_append_frame (grow : Nat → Nat → Nat) (store : List (List α)) (s t : Slice)
    (xs : List α) (ht : t.Valid store) (hst : s.Apart t) :
    t.read (s.append grow store xs).1 = t.read store := by
  obtain ⟨htlen, htcap⟩ := ht
  apply List.ext_getElem?
  intro i
  simp only [Slice.read, getElem?_map_range]
  by_cases hi : i < t.len
  · simp only [hi, if_true]
    congr 1
    unfold Slice.append
    split
    · next hfit =>
      simp only [arrayAt_set]
      by_cases h : s.arr = t.arr ∧ s.arr < store.length
      · rw [if_pos h, h.1]
        have h1 : t.off + i < (arrayAt store t.arr).length := by omega
        rw [cellAt_writeCells _ _ _ _ h1]
        have h3 : ¬ (s.off + s.len ≤ t.off + i ∧ t.off + i < s.off + s.len + xs.length) := by
          have := hst h.1
          omega
        rw [if_neg h3]
      · rw [if_neg h]
    · simp only [arrayAt_append]
      by_cases h : t.arr < store.length
      · rw [if_pos h]
      · have h0 : arrayAt store t.arr = [] := arrayAt_of_le store _ (Nat.le_of_not_lt h)
        rw [h0] at htcap
        simp only [List.length_nil] at htcap
        omega
  · simp only [hi, if_false]

theorem arrayAt_length_append_le (grow : Nat → Nat → Nat) (store : List (List α)) (s : Slice)
    (xs : List α) (j : Nat) :
    (arrayAt store j).length ≤ (arrayAt (s.append grow store xs).1 j).length := by
  unfold Slice.append
  split
  · simp only [arrayAt_set]
    split
    · next h =>
      rw [writeCells_length, h.1]
    · exact Nat.le_refl _
  · simp only [arrayAt_append]
    split
    · exact Nat.le_refl _
    · next h =>
      rw [arrayAt_of_le store j (Nat.le_of_not_lt h)]
      exact Nat.zero_le _

theorem Slice.valid_append_frame (grow : Nat → Nat → Nat) (store : List (List α)) (s t : Slice)
    (xs : List α) (ht : t.Valid store) : t.Valid (s.append grow store xs).1 :=
  ⟨ht.1, Nat.le_trans ht.2 (arrayAt_length_append_le grow store s xs t.arr)⟩

theorem Slice.valid_append (grow : Nat → Nat → Nat) (store : List (List α)) (s : Slice)
    (xs : List α) (hs : s.Valid store) :
    (s.append grow store xs).2.Valid (s.append grow store xs).1 := by
  obtain ⟨hlen, hcap⟩ := hs
  unfold Slice.append
  split
  · next hfit =>
    refine ⟨hfit, ?_⟩
    simp only [arrayAt_set]
    split
    · rw [writeCells_length]
      exact hcap
    · exact hcap
  · refine ⟨Nat.le_max_left _ _, ?_⟩
    simp only [arrayAt_append, Nat.lt_irrefl, if_false, if_true, List.length_append,
      List.length_replicate, read_length, Nat.zero_add]
    omega

theorem Slice.apart_append (grow : Nat → Nat → Nat) (store : List (List α)) (s t : Slice)
    (xs : List α) (ht : t.Valid store) (hst : s.Apart t) (hts : t.Apart s) :
    (s.append grow store xs).2.Apart t ∧ t.Apart (s.append grow store xs).2 := by
  unfold Slice.append
  split
  · next hfit =>
    constructor
    · intro h
      have := hst h
      simp only at h ⊢
      omega
    · intro h
      have := hts h
      simp only at h ⊢
      omega
  · have h := Slice.apart_of_valid_fresh store t
      { arr := store.length, off := 0, len := s.len + xs.length,
        cap := max (s.len + xs.length) (grow s.cap (s.len + xs.length)) } ht rfl
    exact ⟨h.2, h.1⟩

end

/-! ### Slice literals -/

section
variable {α : Type}

theorem Slice.valid_nil (store : List (List α)) : Slice.nil.Valid store :=
  ⟨Nat.le_refl _, Nat.zero_le _⟩

theorem Slice.valid_literal_frame (store : List (List α)) (xs : List α) (t : Slice)
    (ht : t.Valid store) : t.Valid (Slice.literal store xs).1 := by
  refine ⟨ht.1, Nat.le_trans ht.2 ?_⟩
  simp only [Slice.literal, arrayAt_append]
  split
  · exact Nat.le_refl _
  · next h =>
    rw [arrayAt_of_le store _ (Nat.le_of_not_lt h)]
    exact Nat.zero_le _

theorem Slice.valid_literal (store : List (List α)) (xs : List α) :
    (Slice.literal store xs).2.Valid (Slice.literal store xs).1 := by
  refine ⟨Nat.le_refl _, ?_⟩
  simp [Slice.literal, arrayAt_append]

theorem Slice.apart_literal (store : List (List α)) (xs : List α) (t : Slice)
    (ht : t.Valid store) :
    (Slice.literal store xs).2.Apart t ∧ t.Apart (Slice.literal store xs).2 :=
  have h := Slice.apart_of_valid_fresh store t (Slice.literal store xs).2 ht rfl
  ⟨h.2, h.1⟩

variable [Inhabited α]

theorem Slice.read_literal (store : List (List α)) (xs : List α) :
    (Slice.literal store xs).2.read (Slice.literal store xs).1 = xs := by
  apply List.ext_getElem?
  intro i
  simp only [Slice.read, Slice.literal, getElem?_map_range, arrayAt_append, Nat.lt_irrefl,
    if_false, if_true, Nat.zero_add]
  exact (getElem?_eq_cellAt xs i).symm

theorem Slice.read_literal_frame (store : List (List α)) (xs : List α) (t : Slice)
    (ht : t.Valid store) : t.read (Slice.literal store xs).1 = t.read store := by
  obtain ⟨htlen, htcap⟩ := ht
  apply List.ext_getElem?
  intro i
  simp only [Slice.read, Slice.literal, getElem?_map_range, arrayAt_append]
  by_cases hi : i < t.len
  · by_cases h : t.arr < store.length
    · rw [if_pos h]
    · rw [arrayAt_of_le store _ (Nat.le_of_not_lt h)] at htcap
      simp only [List.length_nil] at htcap
      omega
  · simp only [hi, if_false]

end

/-! ## The loops of `Patch` on memory and on values -/

theorem MemContainer.Apart.symm {c d : MemContainer} (h : c.Apart d) : d.Apart c :=
  ⟨h.2.1, h.1, h.2.2.2, h.2.2.1⟩

/-- The inner loop body on memory does to the value of the container what
`patchContainer` does. -/
theorem patchContainerMem_value (grow : Nat → Nat → Nat) (l : LanguageByContainer)
    (mem : Memory) (c : MemContainer) (hc : c.Valid mem) :
    (patchContainerMem grow l mem c).2.toContainer (patchContainerMem grow l mem c).1 =
        patchContainer l (c.toContainer mem)
      ∧ (patchContainerMem grow l mem c).2.Valid (patchContainerMem grow l mem c).1 := by
  unfold patchContainerMem
  by_cases h : c.name = l.containerName
  · rw [if_pos h]
    constructor
    · simp only [MemContainer.toContainer, patchContainer, h, if_true,
        Slice.read_append grow mem.envs c.env targetEnv hc.1,
        Slice.read_append grow mem.mounts c.volumeMounts _ hc.2]
    · exact ⟨Slice.valid_append grow mem.envs c.env targetEnv hc.1,
        Slice.valid_append grow mem.mounts c.volumeMounts _ hc.2⟩
  · rw [if_neg h]
    refine ⟨?_, hc⟩
    simp [MemContainer.toContainer, patchContainer, h]

/-- The inner loop body on memory leaves a container apart from `c` as it
is. -/
theorem patchContainerMem_frame (grow : Nat → Nat → Nat) (l : LanguageByContainer)
    (mem : Memory) (c x : MemContainer) (hx : x.Valid mem) (hcx : c.Apart x) :
    x.toContainer (patchContainerMem grow l mem c).1 = x.toContainer mem
      ∧ x.Valid (patchContainerMem grow l mem c).1
      ∧ (patchContainerMem grow l mem c).2.Apart x := by
  unfold patchContainerMem
  by_cases h : c.name = l.containerName
  · rw [if_pos h]
    have he := Slice.apart_append grow mem.envs c.env x.env targetEnv hx.1 hcx.1 hcx.2.1
    have hm := Slice.apart_append grow mem.mounts c.volumeMounts x.volumeMounts
      [{ name := initVolumeName, mountPath := initMountPath }] hx.2 hcx.2.2.1 hcx.2.2.2
    refine ⟨?_, ?_, ?_⟩
    · simp only [MemContainer.toContainer,
        Slice.read_append_frame grow mem.envs c.env x.env targetEnv hx.1 hcx.1,
        Slice.read_append_frame grow mem.mounts c.volumeMounts x.volumeMounts _ hx.2 hcx.2.2.1]
    · exact ⟨Slice.valid_append_frame grow mem.envs c.env x.env targetEnv hx.1,
        Slice.valid_append_frame grow mem.mounts c.volumeMounts x.volumeMounts _ hx.2⟩
    · exact ⟨he.1, he.2, hm.1, hm.2⟩
  · rw [if_neg h]
    exact ⟨rfl, hx, hcx⟩

/-- The inner loop on memory: on containers that are pairwise apart it does
to the values what the map of `patchContainer` does, and it leaves every
container of the frame `F`, apart from them, as it is. -/
theorem patchContainersMem_value (grow : Nat → Nat → Nat) (l : LanguageByContainer)
    (cs : List MemContainer) :
    ∀ (mem : Memory) (F : List MemContainer),
      (∀ c ∈ cs, c.Valid mem) → (∀ x ∈ F, x.Valid mem) → cs.Pairwise MemContainer.Apart →
      (∀ x ∈ F, ∀ c ∈ cs, x.Apart c) →
      (patchContainersMem grow l mem cs).2.map
          (MemContainer.toContainer (patchContainersMem grow l mem cs).1) =
        (cs.map (MemContainer.toContainer mem)).map (patchContainer l)
      ∧ (∀ x ∈ F, x.toContainer (patchContainersMem grow l mem cs).1 = x.toContainer mem ∧
          x.Valid (patchContainersMem grow l mem cs).1)
      ∧ (∀ c ∈ (patchContainersMem grow l mem cs).2,
          c.Valid (patchContainersMem grow l mem cs).1)
      ∧ (patchContainersMem grow l mem cs).2.Pairwise MemContainer.Apart
      ∧ (∀ x ∈ F, ∀ c ∈ (patchContainersMem grow l mem cs).2, x.Apart c) := by
  induction cs with
  | nil =>
    intro mem F _ hF _ _
    refine ⟨rfl, fun x hx => ⟨rfl, hF x hx⟩, ?_, List.Pairwise.nil, ?_⟩
    · intro c hc
      cases hc
    · intro x _ c hc
      cases hc
  | cons c cs ih =>
    intro mem F hv hF hp hFa
    rw [List.pairwise_cons] at hp
    have hcv : c.Valid mem := hv c (List.mem_cons_self _ _)
    have hstep := patchContainerMem_value grow l mem c hcv
    have hframe : ∀ x : MemContainer, x.Valid mem → c.Apart x →
        x.toContainer (patchContainerMem grow l mem c).1 = x.toContainer mem
          ∧ x.Valid (patchContainerMem grow l mem c).1
          ∧ (patchContainerMem grow l mem c).2.Apart x :=
      fun x hx hcx => patchContainerMem_frame grow l mem c x hx hcx
    have hrest : ∀ d ∈ cs, d.toContainer (patchContainerMem grow l mem c).1 = d.toContainer mem
        ∧ d.Valid (patchContainerMem grow l mem c).1
        ∧ (patchContainerMem grow l mem c).2.Apart d :=
      fun d hd => hframe d (hv d (List.mem_cons_of_mem _ hd)) (hp.1 d hd)
    have hFr : ∀ x ∈ F, x.toContainer (patchContainerMem grow l mem c).1 = x.toContainer mem
        ∧ x.Valid (patchContainerMem grow l mem c).1
        ∧ (patchContainerMem grow l mem c).2.Apart x :=
      fun x hx => hframe x (hF x hx) (hFa x hx c (List.mem_cons_self _ _)).symm
    obtain ⟨h1, h2, h3, h4, h5⟩ := ih (patchContainerMem grow l mem c).1
      ((patchContainerMem grow l mem c).2 :: F)
      (fun d hd => (hrest d hd).2.1)
      (fun x hx => by
        rcases List.mem_cons.1 hx with rfl | hx
        · exact hstep.2
        · exact (hFr x hx).2.1)
      hp.2
      (fun x hx d hd => by
        rcases List.mem_cons.1 hx with rfl | hx
        · exact (hrest d hd).2.2
        · exact hFa x hx d (List.mem_cons_of_mem _ hd))
    have hmap : cs.map (MemContainer.toContainer (patchContainerMem grow l mem c).1) =
        cs.map (MemContainer.toContainer mem) :=
      List.map_congr_left (fun d hd => (hrest d hd).1)
    show ((patchContainerMem grow l mem c).2 ::
          (patchContainersMem grow l (patchContainerMem grow l mem c).1 cs).2).map
          (MemContainer.toContainer
            (patchContainersMem grow l (patchContainerMem grow l mem c).1 cs).1) = _ ∧
        (∀ x ∈ F, x.toContainer
            (patchContainersMem grow l (patchContainerMem grow l mem c).1 cs).1 = _ ∧
          x.Valid (patchContainersMem grow l (patchContainerMem grow l mem c).1 cs).1) ∧
        (∀ d ∈ (patchContainerMem grow l mem c).2 ::
            (patchContainersMem grow l (patchContainerMem grow l mem c).1 cs).2,
          d.Valid (patchContainersMem grow l (patchContainerMem grow l mem c).1 cs).1) ∧
        ((patchContainerMem grow l mem c).2 ::
          (patchContainersMem grow l (patchContainerMem grow l mem c).1 cs).2).Pairwise
            MemContainer.Apart ∧
        (∀ x ∈ F, ∀ d ∈ (patchContainerMem grow l mem c).2 ::
            (patchContainersMem grow l (patchContainerMem grow l mem c).1 cs).2, x.Apart d)
    have hhead := h2 (patchContainerMem grow l mem c).2 (List.mem_cons_self _ _)
    refine ⟨?_, ?_, ?_, ?_, ?_⟩
    · rw [List.map_cons, List.map_cons, List.map_cons, h1, hmap, hhead.1, hstep.1]
    · intro x hx
      have hx2 := h2 x (List.mem_cons_of_mem _ hx)
      exact ⟨hx2.1.trans (hFr x hx).1, hx2.2⟩
    · intro d hd
      rcases List.mem_cons.1 hd with rfl | hd
      · exact hhead.2
      · exact h3 d hd
    · rw [List.pairwise_cons]
      exact ⟨fun d hd => h5 _ (List.mem_cons_self _ _) d hd, h4⟩
    · intro x hx d hd
      rcases List.mem_cons.1 hd with rfl | hd
      · exact ((hFr x hx).2.2).symm
      · exact h5 x (List.mem_cons_of_mem _ hx) d hd

/-- The sidecar in memory has the value `bpfContainer`, and building it
leaves the containers that were there as they are. -/
theorem bpfContainerMem_value (k : PackageConsts) (inst : InstrumentedApplication)
    (l : LanguageByContainer) (mem : Memory) :
    (bpfContainerMem k inst l mem).2.toContainer (bpfContainerMem k inst l mem).1 =
        bpfContainer k inst l
      ∧ (bpfContainerMem k inst l mem).2.Valid (bpfContainerMem k inst l mem).1 := by
  constructor
  · simp only [bpfContainerMem, MemContainer.toContainer, Slice.read_literal]
    rfl
  · exact ⟨Slice.valid_literal _ _, Slice.valid_literal _ _⟩

theorem bpfContainerMem_frame (k : PackageConsts) (inst : InstrumentedApplication)
    (l : LanguageByContainer) (mem : Memory) (x : MemContainer) (hx : x.Valid mem) :
    x.toContainer (bpfContainerMem k inst l mem).1 = x.toContainer mem
      ∧ x.Valid (bpfContainerMem k inst l mem).1
      ∧ (bpfContainerMem k inst l mem).2.Apart x := by
  have he := Slice.apart_literal mem.envs (bpfContainer k inst l).env x.env hx.1
  have hm := Slice.apart_literal mem.mounts (bpfContainer k inst l).volumeMounts
    x.volumeMounts hx.2
  refine ⟨?_, ?_, ?_⟩
  · simp only [bpfContainerMem, MemContainer.toContainer,
      Slice.read_literal_frame mem.envs _ x.env hx.1,
      Slice.read_literal_frame mem.mounts _ x.volumeMounts hx.2]
  · exact ⟨Slice.valid_literal_frame mem.envs _ x.env hx.1,
      Slice.valid_literal_frame mem.mounts _ x.volumeMounts hx.2⟩
  · exact ⟨he.1, he.2, hm.1, hm.2⟩

/-- The outer loop body on memory does to the values of containers that are
pairwise apart what `patchLanguage` does, and leaves them pairwise apart. -/
theorem patchLanguageMem_value (grow : Nat → Nat → Nat) (k : PackageConsts)
    (inst : InstrumentedApplication) (l : LanguageByContainer)
    (st : Memory × List MemContainer)
    (hv : ∀ c ∈ st.2, c.Valid st.1) (hp : st.2.Pairwise MemContainer.Apart) :
    (patchLanguageMem grow k inst st l).2.map
        (MemContainer.toContainer (patchLanguageMem grow k inst st l).1) =
        patchLanguage k inst (st.2.map (MemContainer.toContainer st.1)) l
      ∧ (∀ c ∈ (patchLanguageMem grow k inst st l).2,
          c.Valid (patchLanguageMem grow k inst st l).1)
      ∧ (patchLanguageMem grow k inst st l).2.Pairwise MemContainer.Apart := by
  unfold patchLanguageMem patchLanguage
  by_cases hs : shouldPatch inst GoProgrammingLanguage l.containerName = true
  · by_cases hn : l.processName = ""
    · rw [if_pos hs, if_pos hn, if_pos hs, if_pos hn]
      exact ⟨rfl, hv, hp⟩
    · rw [if_pos hs, if_neg hn, if_pos hs, if_neg hn]
      have hb := bpfContainerMem_value k inst l st.1
      have hbf := fun c hc => bpfContainerMem_frame k inst l st.1 c (hv c hc)
      obtain ⟨h1, h2, h3, h4, h5⟩ := patchContainersMem_value grow l st.2
        (bpfContainerMem k inst l st.1).1 [(bpfContainerMem k inst l st.1).2]
        (fun c hc => (hbf c hc).2.1)
        (fun x hx => by
          rw [List.mem_singleton] at hx
          rw [hx]
          exact hb.2)
        hp
        (fun x hx c hc => by
          rw [List.mem_singleton] at hx
          rw [hx]
          exact (hbf c hc).2.2)
      have hmap : st.2.map (MemContainer.toContainer (bpfContainerMem k inst l st.1).1) =
          st.2.map (MemContainer.toContainer st.1) :=
        List.map_congr_left (fun c hc => (hbf c hc).1)
      have hside := h2 _ (List.mem_singleton_self _)
      refine ⟨?_, ?_, ?_⟩
      · simp only [List.map_append, List.map_cons, List.map_nil]
        rw [h1, hmap, hside.1, hb.1]
      · intro c hc
        rcases List.mem_append.1 hc with hc | hc
        · exact h3 c hc
        · rw [List.mem_singleton] at hc
          rw [hc]
          exact hside.2
      · rw [List.pairwise_append]
        refine ⟨h4, List.pairwise_singleton _ _, ?_⟩
        intro c hc d hd
        rw [List.mem_singleton] at hd
        rw [hd]
        exact (h5 _ (List.mem_singleton_self _) c hc).symm
  · rw [if_neg hs, if_neg hs]
    exact ⟨rfl, hv, hp⟩

/-- The outer loop on memory and on values. -/
theorem foldl_patchLanguageMem_value (grow : Nat → Nat → Nat) (k : PackageConsts)
    (inst : InstrumentedApplication) (ls : List LanguageByContainer) :
    ∀ st : Memory × List MemContainer,
      (∀ c ∈ st.2, c.Valid st.1) → st.2.Pairwise MemContainer.Apart →
      (ls.foldl (patchLanguageMem grow k inst) st).2.map
          (MemContainer.toContainer (ls.foldl (patchLanguageMem grow k inst) st).1) =
        ls.foldl (patchLanguage k inst) (st.2.map (MemContainer.toContainer st.1)) := by
  induction ls with
  | nil =>
    intro st _ _
    rfl
  | cons l ls ih =>
    intro st hv hp
    obtain ⟨h1, h2, h3⟩ := patchLanguageMem_value grow k inst l st hv hp
    rw [List.foldl_cons, List.foldl_cons, ih _ h2 h3, h1]

/-- Building the init container leaves the containers as they are. -/
theorem odigosInitContainerMem_frame (mem : Memory) (x : MemContainer) (hx : x.Valid mem) :
    x.toContainer (odigosInitContainerMem mem).1 = x.toContainer mem
      ∧ x.Valid (odigosInitContainerMem mem).1 := by
  constructor
  · simp only [odigosInitContainerMem, MemContainer.toContainer,
      Slice.read_literal_frame mem.mounts _ x.volumeMounts hx.2]
  · exact ⟨hx.1, Slice.valid_literal_frame mem.mounts _ x.volumeMounts hx.2⟩

theorem odigosInitContainerMem_value (mem : Memory) :
    (odigosInitContainerMem mem).2.toContainer (odigosInitContainerMem mem).1 =
      odigosInitContainer := by
  simp only [odigosInitContainerMem, MemContainer.toContainer, Slice.read_literal]
  rfl

/-- On a template whose containers share no spare capacity, `Patch` on memory
gives the containers that `Patch` on values gives. -/
theorem PatchMem_containers (grow : Nat → Nat → Nat) (k : PackageConsts)
    (m : MemPodTemplateSpec) (inst : InstrumentedApplication)
    (hwf : m.WellFormed) (hsep : m.Separated) :
    (PatchMem grow k m inst).toTemplate.spec.containers =
      (Patch k m.toTemplate inst).spec.containers := by
  have hfr := fun c hc => odigosInitContainerMem_frame m.memory c (hwf.1 c hc)
  have h := foldl_patchLanguageMem_value grow k inst inst.spec.languages
    ((odigosInitContainerMem m.memory).1, m.containers) (fun c hc => (hfr c hc).2) hsep
  have hmap : m.containers.map (MemContainer.toContainer (odigosInitContainerMem m.memory).1) =
      m.containers.map (MemContainer.toContainer m.memory) :=
    List.map_congr_left (fun c hc => (hfr c hc).1)
  rw [hmap] at h
  exact h

theorem foldl_patchLanguageMem_of_fixed (grow : Nat → Nat → Nat) (k : PackageConsts)
    (inst : InstrumentedApplication) (ls : List LanguageByContainer)
    (st : Memory × List MemContainer)
    (h : ∀ l ∈ ls, shouldPatch inst GoProgrammingLanguage l.containerName = false) :
    ls.foldl (patchLanguageMem grow k inst) st = st := by
  induction ls generalizing st with
  | nil => rfl
  | cons l ls ih =>
    have hl : patchLanguageMem grow k inst st l = st := by
      simp [patchLanguageMem, h l (List.mem_cons_self _ _)]
    rw [List.foldl_cons, hl]
    exact ih st (fun m hm => h m (List.mem_cons_of_mem _ hm))

/-! ## The rewritten container and the untouched containers, on memory -/

/-- C4, as stated, fails: in `sharedPod` the `Env` slices of `app` and of
`proxy` are views of one array with spare capacity, the container names are
distinct and both containers are declared as Go with a process name.  The
`append` for `app` writes the three variables behind `MODE`; the `append` for
`proxy` then writes them behind the first two cells, over what `app` holds:
`app` ends with `MODE`, `HOST_IP`, `HOST_IP`, `POD_NAME`, not with its
original environment followed by the three variables. -/
theorem PatchMem_rewrites_target_counterexample :
    sharedPod.WellFormed
      ∧ (sharedPod.toTemplate.spec.containers.map (fun c => c.name)).Nodup
      ∧ (∀ l ∈ bothApp.spec.languages,
          l.language = ProgrammingLanguage.go ∧ l.processName ≠ "")
      ∧ (bothApp.spec.languages.map (fun l => l.containerName)).Nodup
      ∧ (sharedPod.toTemplate.spec.containers[0]?).map (fun c => (c.name, c.env)) =
          some ("app", [{ name := "MODE", value := "prod" }])
      ∧ ((PatchMem exampleGrow exampleConsts sharedPod bothApp).toTemplate.spec.containers[0]?).map
          (fun c => (c.name, c.env.map (fun e => e.name))) =
          some ("app", ["MODE", "HOST_IP", "HOST_IP", "POD_NAME"]) := by
  decide

/-- C4, amended: on a template whose containers share no spare capacity (no
`Env` or `VolumeMounts` slice of a container has unused capacity in the part
of an array that the corresponding slice of another container spans), when
all declarations are Go declarations with a non-empty process name and
pairwise distinct container names, every container of the template that a
declaration `l` names has, after `Patch`, the command `["/odigos/init"]`, the
arguments `calculateInitArgs` of its original command and arguments and
`l.processName`, its original volume mounts followed by the one mount
`odigos` at `/odigos`, its original environment followed by `HOST_IP`,
`POD_NAME` and `POD_NAMESPACE` in this order, and all its other fields, the
name among them, as before; it stays at its index.  (Neither the
distinctness of the template's container names nor the condition on the
sidecar names is needed for this.) -/
theorem PatchMem_rewrites_target (grow : Nat → Nat → Nat) (k : PackageConsts)
    (m : MemPodTemplateSpec) (inst : InstrumentedApplication)
    (hwf : m.WellFormed) (hsep : m.Separated)
    (hgo : ∀ l ∈ inst.spec.languages, l.language = ProgrammingLanguage.go)
    (hproc : ∀ l ∈ inst.spec.languages, l.processName ≠ "")
    (hnodup : (inst.spec.languages.map (fun l => l.containerName)).Nodup)
    (i : Nat) (c : Container) (l : LanguageByContainer)
    (hc : m.toTemplate.spec.containers[i]? = some c) (hl : l ∈ inst.spec.languages)
    (hname : c.name = l.containerName) :
    (PatchMem grow k m inst).toTemplate.spec.containers[i]? =
      some { c with
        command := ["/odigos/init"]
        args := calculateInitArgs c.command c.args l.processName
        volumeMounts := c.volumeMounts ++ [{ name := "odigos", mountPath := "/odigos" }]
        env := c.env ++
          [ { name := "HOST_IP", value := ""
              valueFrom := some { fieldRef := some { fieldPath := "status.hostIP" } } },
            { name := "POD_NAME", value := ""
              valueFrom := some { fieldRef := some { fieldPath := "metadata.name" } } },
            { name := "POD_NAMESPACE", value := ""
              valueFrom := some { fieldRef := some { fieldPath := "metadata.namespace" } } } ] } := by
  rw [PatchMem_containers grow k m inst hwf hsep]
  exact Patch_target_value k m.toTemplate inst hgo hproc hnodup i c l hc hl hname

/-- C4, amended, on `exampleMemPod`: the container `app`, whose `Env` has
room for the three variables in its own array. -/
theorem PatchMem_rewrites_target_witness :
    (PatchMem exampleGrow exampleConsts exampleMemPod exampleApp).toTemplate.spec.containers[0]? =
      some
        { name := "app", image := "shop/app:1"
          command := ["/odigos/init"]
          args := ["/bin/server", "server", "--flag"]
          env :=
            [ { name := "MODE", value := "prod" },
              { name := "HOST_IP"
                valueFrom := some { fieldRef := some { fieldPath := "status.hostIP" } } },
              { name := "POD_NAME"
                valueFrom := some { fieldRef := some { fieldPath := "metadata.name" } } },
              { name := "POD_NAMESPACE"
                valueFrom := some { fieldRef := some { fieldPath := "metadata.namespace" } } } ]
          volumeMounts :=
            [ { name := "data", mountPath := "/data" }, { name := "odigos", mountPath := "/odigos" } ] } :=
  PatchMem_rewrites_target exampleGrow exampleConsts exampleMemPod exampleApp (by decide)
    (by decide) (by decide) (by decide) (by decide) 0 _ exampleLanguage rfl (by decide) rfl

/-- C13, as stated, fails: in `sharedPod` the `Env` slices of `app` and of
`proxy` are views of one array with spare capacity, and only `app` is
declared.  The `append` for `app` writes `HOST_IP` into the second cell, which
`proxy` sees: `proxy`, named by no declaration, ends with `MODE`, `HOST_IP`
where it had `MODE`, `LEVEL`. -/
theorem PatchMem_frame_counterexample :
    sharedPod.WellFormed
      ∧ (∀ l ∈ exampleApp.spec.languages, l.containerName ≠ "proxy")
      ∧ (sharedPod.toTemplate.spec.containers[1]?).map
          (fun c => (c.name, c.env.map (fun e => e.name))) = some ("proxy", ["MODE", "LEVEL"])
      ∧ ((PatchMem exampleGrow exampleConsts sharedPod exampleApp).toTemplate.spec.containers[1]?).map
          (fun c => (c.name, c.env.map (fun e => e.name))) =
          some ("proxy", ["MODE", "HOST_IP"]) := by
  decide

/-- C13, amended: on a template whose containers share no spare capacity,
an original container whose name is the container name of no declaration is,
after `Patch`, the same container at the same index; and on every template,
with no Go declaration in the spec the container list after `Patch` is the
original one, while the init container is appended, two volumes are added and
the process-namespace flag is set.  The loop leaves the containers as they
are with any test in the place of `shouldPatch` that answers as §4.1, step 2
says. -/
theorem PatchMem_frame (grow : Nat → Nat → Nat) (k : PackageConsts)
    (m : MemPodTemplateSpec) (inst : InstrumentedApplication) (hwf : m.WellFormed) :
    (m.Separated →
        ∀ (i : Nat) (c : Container), m.toTemplate.spec.containers[i]? = some c →
          (∀ l ∈ inst.spec.languages, l.containerName ≠ c.name) →
          (PatchMem grow k m inst).toTemplate.spec.containers[i]? = some c)
      ∧ ((∀ l ∈ inst.spec.languages, l.language ≠ ProgrammingLanguage.go) →
        (PatchMem grow k m inst).toTemplate.spec.containers = m.toTemplate.spec.containers ∧
        (PatchMem grow k m inst).toTemplate.spec.initContainers =
          m.toTemplate.spec.initContainers ++ [odigosInitContainer] ∧
        (PatchMem grow k m inst).toTemplate.spec.volumes.length =
          m.toTemplate.spec.volumes.length + 2 ∧
        (PatchMem grow k m inst).toTemplate.spec.shareProcessNamespace = some true)
      ∧ (∀ sp : InstrumentedApplication → ProgrammingLanguage → String → Bool,
          gateBySpec sp inst inst.spec.languages →
          (∀ l ∈ inst.spec.languages, l.language ≠ ProgrammingLanguage.go) →
          patchLoopWith sp k inst m.toTemplate.spec.containers =
            m.toTemplate.spec.containers) := by
  refine ⟨?_, ?_, ?_⟩
  · intro hsep i c hc hno
    rw [PatchMem_containers grow k m inst hwf hsep]
    exact (Patch_frame_value k m.toTemplate inst).1 i c hc hno
  rotate_left
  · intro sp hg hno
    exact foldl_patchLanguageWith_of_fixed sp k inst _ _
      (fun l hl => by
        rw [hg l hl]
        exact decide_eq_false (hno l hl))
  · intro hno
    have hfix : inst.spec.languages.foldl (patchLanguageMem grow k inst)
        ((odigosInitContainerMem m.memory).1, m.containers) =
        ((odigosInitContainerMem m.memory).1, m.containers) :=
      foldl_patchLanguageMem_of_fixed grow k inst _ _
        (fun l _ => shouldPatch_eq_false inst l.containerName hno)
    refine ⟨?_, ?_, ?_, rfl⟩
    · show ((inst.spec.languages.foldl (patchLanguageMem grow k inst)
          ((odigosInitContainerMem m.memory).1, m.containers)).2.map
          (MemContainer.toContainer (inst.spec.languages.foldl (patchLanguageMem grow k inst)
            ((odigosInitContainerMem m.memory).1, m.containers)).1)) =
        m.containers.map (MemContainer.toContainer m.memory)
      rw [hfix]
      exact List.map_congr_left
        (fun c hc => (odigosInitContainerMem_frame m.memory c (hwf.1 c hc)).1)
    · show ((m.initContainers ++ [(odigosInitContainerMem m.memory).2]).map
          (MemContainer.toContainer (inst.spec.languages.foldl (patchLanguageMem grow k inst)
            ((odigosInitContainerMem m.memory).1, m.containers)).1)) =
        m.initContainers.map (MemContainer.toContainer m.memory) ++ [odigosInitContainer]
      rw [hfix, List.map_append, List.map_singleton, odigosInitContainerMem_value]
      congr 1
      exact List.map_congr_left
        (fun c hc => (odigosInitContainerMem_frame m.memory c (hwf.2 c hc)).1)
    · show (m.volumes ++ _).length = m.volumes.length + 2
      simp

/-- C13, amended, on `exampleMemPod`: the container `proxy`, which
`exampleApp` does not declare. -/
theorem PatchMem_frame_witness :
    (PatchMem exampleGrow exampleConsts exampleMemPod exampleApp).toTemplate.spec.containers[1]? =
      some { name := "proxy", image := "shop/proxy:2" } :=
  (PatchMem_frame exampleGrow exampleConsts exampleMemPod exampleApp (by decide)).1 (by decide)
    1 _ rfl (by decide)

end Odigos
